import Mathlib

/-!
# Client connection pool of godfs (`src/libclient/conn_manager.go`)

A shallow embedding of `ClientConnectionPool` and its methods, followed by the
properties of the pool that the specification states.

Modelling conventions

* The Go type `int` is 64 bits wide and its addition wraps around. A value
  of that type is an `Int` between `minInt` and `maxInt`, and `addInt` is the
  addition of Go on such values: the integer sum brought back into the range.
  The fields and arguments of type `int` are `Int`s; on an `Int` outside the
  range, which is no Go value, `addInt` is the plain integer sum.
* A Go `map[string]V` is an association list with at most one entry per key
  (`mapGet`, `mapSet`); a key that is absent reads as `none`, which is what
  Go returns as the zero value (`nil` list, counter `0`).
* A `*list.List` stored in `connMap` is a heap object that is mutated in
  place. The embedding stores the contents of the list under the key, and an
  in-place mutation writes the new contents back under the same key.
* `*bridge.Bridge` is a pointer: `none` is `nil`, `some a` is the Bridge at
  address `a`.
* The two mutexes are not modelled: the embedding is sequential, every method
  takes its lock on entry and releases it (deferred) on exit.
* Calls that leave the package (`net.Dial`, `bridge.NewBridge`,
  `ValidateConnection`, `Close`, `libservice.UpdateTrackerSyncId`) and calls
  of `IncreaseActiveConnection` are recorded, in program order, in the
  `events` of an `Outcome`. What the outside world answers is a parameter
  (`External`). Calls of `logger` are not recorded.
-/

namespace libclient

/-! ## Go maps with string keys -/

/-- A Go `map[string]V`. -/
abbrev GoMap (V : Type) := List (String × V)

/-- The read `m[k]`: `none` when the key is absent. -/
def mapGet {V : Type} : GoMap V → String → Option V
  | [], _ => none
  | (k1, v) :: rest, k => if k1 = k then some v else mapGet rest k

/-- The write `m[k] = v`: replaces the entry of `k`, or adds one. -/
def mapSet {V : Type} : GoMap V → String → V → GoMap V
  | [], k, v => [(k, v)]
  | (k1, v1) :: rest, k, v => if k1 = k then (k, v) :: rest else (k1, v1) :: mapSet rest k v

/-! ## Data model -/

/-- The fields of `bridge.ExpireMember` that the pool reads. -/
structure ExpireMember where
  AdvertiseAddr : String
  Port : Int
  Group : String
  InstanceId : String
  deriving DecidableEq, Repr

/-- The Go type `*bridge.Bridge`: `none` is the nil pointer. What `Close` does
to a nil Bridge is a matter of the `bridge` package; the pool calls it
whatever the pointer is. -/
abbrev BridgePtr := Option Nat

/-- The Go `error` values that a method of the pool can return. The value
`MAX_CONN_EXCEED_ERROR` of the pool is made by `errors.New` inside this
package; the packages it calls cannot import `libclient` (Go has no import
cycles), so an error coming from them is never that value. -/
inductive GoError where
  | MAX_CONN_EXCEED_ERROR
  | external (msg : String)
  deriving DecidableEq, Repr

/-- The calls recorded during a method, in program order. -/
inductive Event where
  | dial (address : String)
  | newBridge (b : Nat)
  | validateConnection (b : Nat)
  | updateTrackerSyncId (uuid : String) (syncId : Int)
  | close (b : BridgePtr)
  | increaseActiveConnection (uid : String) (value : Int)
  deriving DecidableEq, Repr

/-- What the outside world answers during one `newConnection`:
`dialErr` is the error of `net.Dial` (`none` for `nil`), `bridge` the address
of the Bridge that `bridge.NewBridge` allocates, `isNew` and `validateErr` the
two results of `ValidateConnection`, `uuid` the field `connBridge.UUID` after
the handshake, `CLIENT_TYPE` the value of `app.CLIENT_TYPE`, and `syncErr` the
error of `libservice.UpdateTrackerSyncId`. -/
structure External where
  dialErr : Option String
  bridge : Nat
  isNew : Bool
  validateErr : Option String
  uuid : String
  CLIENT_TYPE : Int
  syncErr : Option String
  deriving DecidableEq, Repr

/-- The struct `ClientConnectionPool` of a pool whose locks and maps are
allocated (the two mutex fields are left out). -/
structure ClientConnectionPool where
  connMap : GoMap (List BridgePtr)
  activeConnCounter : GoMap Int
  maxConnPerServer : Int
  totalActiveConn : Int
  deriving DecidableEq, Repr

/-- The result of running a method: the returned value, the pool afterwards,
the recorded calls, and whether the method ended in a run-time panic (the pool
is then as the method left it when it panicked). -/
structure Outcome (α : Type) where
  ret : α
  pool : ClientConnectionPool
  events : List Event
  panicked : Bool

/-! ## The Go type `int` -/

/-- The smallest value of the Go type `int` (64 bits). -/
def minInt : Int := -9223372036854775808

/-- The largest value of the Go type `int` (64 bits). -/
def maxInt : Int := 9223372036854775807

/-- The integer is a value of the Go type `int`. -/
def InRange (x : Int) : Prop := minInt ≤ x ∧ x ≤ maxInt

instance (x : Int) : Decidable (InRange x) := by
  unfold InRange
  infer_instance

/-- The value of the Go type `int` that differs from `x` by a multiple of
`2^64`. -/
def wrapInt (x : Int) : Int :=
  (x + 9223372036854775808) % 18446744073709551616 - 9223372036854775808

/-- The addition of Go on `int`: the sum of two values of the type, wrapped
around when it leaves the range. On an operand outside the range, which is no
Go value, it is the integer sum. -/
def addInt (a b : Int) : Int :=
  if InRange a ∧ InRange b then wrapInt (a + b) else a + b

/-! ## The methods -/

/-- `Init`: allocates the locks and two empty maps and sets the cap. The
field `totalActiveConn` of the receiver is not assigned. -/
def Init (pool : ClientConnectionPool) (maxConnPerServer : Int) : ClientConnectionPool :=
  { connMap := []
    activeConnCounter := []
    maxConnPerServer := if maxConnPerServer ≤ 0 ∨ maxConnPerServer > 100 then 10 else maxConnPerServer
    totalActiveConn := pool.totalActiveConn }

/-- `strconv.Itoa`: the decimal text of an integer, with `-` for negatives. -/
def Itoa (i : Int) : String := toString i

/-- `GetStorageServerUID`. -/
def GetStorageServerUID (server : ExpireMember) : String :=
  server.AdvertiseAddr ++ ":" ++ Itoa server.Port ++ ":" ++ server.Group ++ ":" ++ server.InstanceId

/-- `IncreaseActiveConnection`. -/
def IncreaseActiveConnection (pool : ClientConnectionPool) (server : ExpireMember) (value : Int) :
    Outcome Int :=
  let totalActiveConn := addInt pool.totalActiveConn value
  let oldVal := (mapGet pool.activeConnCounter (GetStorageServerUID server)).getD 0
  { ret := addInt oldVal value
    pool := { pool with
      totalActiveConn := totalActiveConn
      activeConnCounter :=
        mapSet pool.activeConnCounter (GetStorageServerUID server) (addInt oldVal value) }
    events := [Event.increaseActiveConnection (GetStorageServerUID server) value]
    panicked := false }

/-- `getConnMap`: returns the list of the peer, storing a new empty one when
the map has none. -/
def getConnMap (pool : ClientConnectionPool) (server : ExpireMember) : Outcome (List BridgePtr) :=
  let uid := GetStorageServerUID server
  let connList := (mapGet pool.connMap uid).getD []
  { ret := connList
    pool := { pool with connMap := mapSet pool.connMap uid connList }
    events := []
    panicked := false }

/-- `newConnection`. -/
def newConnection (ext : External) (pool : ClientConnectionPool) (server : ExpireMember) :
    Outcome (BridgePtr × Option GoError) :=
  let address := server.AdvertiseAddr ++ ":" ++ Itoa server.Port
  match ext.dialErr with
  | some e =>
    { ret := (none, some (GoError.external e)), pool := pool
      events := [Event.dial address], panicked := false }
  | none =>
    let connBridge := ext.bridge
    let opened := [Event.dial address, Event.newBridge connBridge, Event.validateConnection connBridge]
    match ext.validateErr with
    | some e1 =>
      { ret := (none, some (GoError.external e1)), pool := pool
        events := opened ++ [Event.close (some connBridge)], panicked := false }
    | none =>
      if ext.isNew = true ∧ ext.CLIENT_TYPE = 1 then
        match ext.syncErr with
        | some e2 =>
          { ret := (none, some (GoError.external e2)), pool := pool
            events := opened ++ [Event.updateTrackerSyncId ext.uuid 0, Event.close (some connBridge)]
            panicked := false }
        | none =>
          let inc := IncreaseActiveConnection pool server 1
          { ret := (some connBridge, none), pool := inc.pool
            events := opened ++ [Event.updateTrackerSyncId ext.uuid 0] ++ inc.events
            panicked := false }
      else
        let inc := IncreaseActiveConnection pool server 1
        { ret := (some connBridge, none), pool := inc.pool
          events := opened ++ inc.events, panicked := false }

/-- `GetConnBridge` (and, line for line, `testGetConnBridge`). -/
def GetConnBridge (ext : External) (pool : ClientConnectionPool) (server : ExpireMember) :
    Outcome (BridgePtr × Option GoError) :=
  let got := getConnMap pool server
  match got.ret with
  | front :: rest =>
    { ret := (front, none)
      pool := { got.pool with connMap := mapSet got.pool.connMap (GetStorageServerUID server) rest }
      events := [], panicked := false }
  | [] =>
    let cur := IncreaseActiveConnection got.pool server 0
    if cur.ret < cur.pool.maxConnPerServer then
      let made := newConnection ext cur.pool server
      { made with events := cur.events ++ made.events }
    else
      { ret := (none, some GoError.MAX_CONN_EXCEED_ERROR), pool := cur.pool
        events := cur.events, panicked := false }

/-- `ReturnConnBridge`. -/
def ReturnConnBridge (pool : ClientConnectionPool) (server : ExpireMember) (connBridge : BridgePtr) :
    Outcome Unit :=
  let got := getConnMap pool server
  { ret := ()
    pool := { got.pool with
      connMap := mapSet got.pool.connMap (GetStorageServerUID server) (got.ret ++ [connBridge]) }
    events := [], panicked := false }

/-- `ReturnBrokenConnBridge`. The argument of the final `logger.Trace` reads
`pool.connMap[uid]` without `getConnMap` and calls `Len` on it, which panics on
the nil list of an absent key; the connection is closed and the counters are
decreased before that. -/
def ReturnBrokenConnBridge (pool : ClientConnectionPool) (server : ExpireMember)
    (connBridge : BridgePtr) : Outcome Unit :=
  let dec := IncreaseActiveConnection pool server (-1)
  { ret := ()
    pool := dec.pool
    events := Event.close connBridge :: dec.events
    panicked := (mapGet dec.pool.connMap (GetStorageServerUID server)).isNone }

/-! ## Observations -/

/-- The contents of the idle list stored under a key (empty when absent). -/
def idleAt (pool : ClientConnectionPool) (uid : String) : List BridgePtr :=
  (mapGet pool.connMap uid).getD []

/-- The value read from `activeConnCounter` under a key (`0` when absent). -/
def activeAt (pool : ClientConnectionPool) (uid : String) : Int :=
  (mapGet pool.activeConnCounter uid).getD 0

/-- The idle list of a peer. -/
def idleList (pool : ClientConnectionPool) (server : ExpireMember) : List BridgePtr :=
  idleAt pool (GetStorageServerUID server)

/-- The active counter of a peer. -/
def activeCount (pool : ClientConnectionPool) (server : ExpireMember) : Int :=
  activeAt pool (GetStorageServerUID server)

/-! ## Sequences of calls -/

/-- One call of a public method, with what the outside world answers to it. -/
inductive Call where
  | GetConnBridge (server : ExpireMember) (ext : External)
  | ReturnConnBridge (server : ExpireMember) (connBridge : BridgePtr)
  | ReturnBrokenConnBridge (server : ExpireMember) (connBridge : BridgePtr)
  deriving DecidableEq, Repr

/-- The peer a call is made on. -/
def Call.server : Call → ExpireMember
  | Call.GetConnBridge server _ => server
  | Call.ReturnConnBridge server _ => server
  | Call.ReturnBrokenConnBridge server _ => server

/-- The pool after one call. A call that ends in a panic leaves the pool as it
was when it panicked, and a sequence goes on from there, as it does when the
caller recovers; the states of a program that stops at the panic are an
initial part of these. -/
def step (pool : ClientConnectionPool) : Call → ClientConnectionPool
  | Call.GetConnBridge server ext => (GetConnBridge ext pool server).pool
  | Call.ReturnConnBridge server c => (ReturnConnBridge pool server c).pool
  | Call.ReturnBrokenConnBridge server c => (ReturnBrokenConnBridge pool server c).pool

/-- The pool after a sequence of calls. -/
def run (pool : ClientConnectionPool) (calls : List Call) : ClientConnectionPool :=
  calls.foldl step pool

/-- The pools after each call of a sequence, in order. -/
def statesAfter (pool : ClientConnectionPool) : List Call → List ClientConnectionPool
  | [] => []
  | c :: cs => step pool c :: statesAfter (step pool c) cs

/-! ## Answers of the outside world -/

/-- Dial, handshake and (when it is made) the registration call all succeed. -/
def AllSucceed (ext : External) : Prop :=
  ext.dialErr = none ∧ ext.validateErr = none ∧
    (ext.isNew = true ∧ ext.CLIENT_TYPE = 1 → ext.syncErr = none)

/-- The dial, the handshake or the registration call (when it is made) fails
with the error `e`, the earlier steps having succeeded. -/
def FailsWith (ext : External) (e : String) : Prop :=
  ext.dialErr = some e ∨
  (ext.dialErr = none ∧ ext.validateErr = some e) ∨
  (ext.dialErr = none ∧ ext.validateErr = none ∧ ext.isNew = true ∧ ext.CLIENT_TYPE = 1 ∧
    ext.syncErr = some e)

instance (ext : External) : Decidable (AllSucceed ext) := by
  unfold AllSucceed
  infer_instance

instance (ext : External) (e : String) : Decidable (FailsWith ext e) := by
  unfold FailsWith
  infer_instance

/-! ## Sample data -/

/-- A peer. -/
def peerA : ExpireMember :=
  { AdvertiseAddr := "10.0.0.1", Port := 1024, Group := "G01", InstanceId := "s1" }

/-- Another peer. -/
def peerB : ExpireMember :=
  { AdvertiseAddr := "10.0.0.2", Port := 1024, Group := "G01", InstanceId := "s2" }

/-- The outside world lets the connection be made; the Bridge is at `b`. -/
def extOk (b : Nat) : External :=
  { dialErr := none, bridge := b, isNew := true, validateErr := none, uuid := "uuid"
    CLIENT_TYPE := 1, syncErr := none }

/-- The dial fails. -/
def extDialFails : External :=
  { dialErr := some "connection refused", bridge := 0, isNew := false, validateErr := none
    uuid := "", CLIENT_TYPE := 1, syncErr := none }

/-- The dial succeeds and the handshake fails. -/
def extHandshakeFails (b : Nat) : External :=
  { dialErr := none, bridge := b, isNew := false, validateErr := some "validate failed"
    uuid := "", CLIENT_TYPE := 1, syncErr := none }

/-- A `ClientConnectionPool` value before `Init`, all fields zero. -/
def zeroPool : ClientConnectionPool :=
  { connMap := [], activeConnCounter := [], maxConnPerServer := 0, totalActiveConn := 0 }

/-- `Init(2)`, two connections to `peerA` made and both handed back. -/
def poolTwoIdle : ClientConnectionPool :=
  run (Init zeroPool 2)
    [Call.GetConnBridge peerA (extOk 1), Call.GetConnBridge peerA (extOk 2),
     Call.ReturnConnBridge peerA (some 1), Call.ReturnConnBridge peerA (some 2)]

/-- `Init(2)`, two connections to `peerA` made and both still held. -/
def poolTwoHeld : ClientConnectionPool :=
  run (Init zeroPool 2)
    [Call.GetConnBridge peerA (extOk 1), Call.GetConnBridge peerA (extOk 2)]

/-- A sequence of calls on `peerA`: two connections made, a third refused, one
discarded, one made, one handed back, a stray discard, a failed handshake. -/
def sampleCalls : List Call :=
  [Call.GetConnBridge peerA (extOk 1), Call.GetConnBridge peerA (extOk 2),
   Call.GetConnBridge peerA (extOk 3), Call.ReturnBrokenConnBridge peerA (some 1),
   Call.GetConnBridge peerA (extOk 4), Call.ReturnConnBridge peerA (some 2),
   Call.ReturnBrokenConnBridge peerA (some 9), Call.GetConnBridge peerA (extHandshakeFails 5)]

/-! ## Well-formed sequences: callers hand back what they hold -/

/-- The list without the first occurrence of `x`. -/
def removeOne {α : Type} [DecidableEq α] (x : α) : List α → List α
  | [] => []
  | y :: ys => if y = x then ys else y :: removeOne x ys

/-- The connections in the hands of callers, each with the peer it was got for. -/
abbrev Held := List (ExpireMember × BridgePtr)

/-- The holdings after a call: a `GetConnBridge` that returns a nil error
hands its connection to the caller, the two return methods take the
connection out of the hands of the caller. -/
def heldAfter (pool : ClientConnectionPool) (held : Held) : Call → Held
  | Call.GetConnBridge server ext =>
    if (GetConnBridge ext pool server).ret.2 = none then
      (server, (GetConnBridge ext pool server).ret.1) :: held
    else held
  | Call.ReturnConnBridge server c => removeOne (server, c) held
  | Call.ReturnBrokenConnBridge server c => removeOne (server, c) held

/-- A call is allowed when what it hands back or discards is held, and was got
for the same peer. -/
def allowed (held : Held) : Call → Bool
  | Call.GetConnBridge _ _ => true
  | Call.ReturnConnBridge server c => decide ((server, c) ∈ held)
  | Call.ReturnBrokenConnBridge server c => decide ((server, c) ∈ held)

/-- Every call of the sequence is allowed when it is made. -/
def wellFormedFrom (pool : ClientConnectionPool) (held : Held) : List Call → Bool
  | [] => true
  | c :: cs => allowed held c && wellFormedFrom (step pool c) (heldAfter pool held c) cs

/-- The holdings after a sequence of calls. -/
def heldRun (pool : ClientConnectionPool) (held : Held) : List Call → Held
  | [] => held
  | c :: cs => heldRun (step pool c) (heldAfter pool held c) cs

/-- A sequence of calls made on a pool just initialised is well formed. -/
def wellFormed (pool : ClientConnectionPool) (calls : List Call) : Bool :=
  wellFormedFrom pool [] calls

/-- How many held connections were got under a key. -/
def heldCount (held : Held) (q : String) : Nat :=
  held.countP (fun p => decide (GetStorageServerUID p.1 = q))

/-- The counter of every key is the number of its idle connections plus the
number of its connections in the hands of callers. -/
def Counted (pool : ClientConnectionPool) (held : Held) : Prop :=
  ∀ q, activeAt pool q = ((idleAt pool q).length : Int) + (heldCount held q : Int)

/-- A well-formed sequence on two peers: connections made, one handed back and
got again from the idle list, a handshake that fails, one discarded, one handed
back; connection `3` stays with its caller. -/
def wellFormedCalls : List Call :=
  [Call.GetConnBridge peerA (extOk 1), Call.GetConnBridge peerB (extOk 2),
   Call.GetConnBridge peerA (extOk 3), Call.ReturnConnBridge peerA (some 1),
   Call.GetConnBridge peerA (extOk 4), Call.GetConnBridge peerA (extHandshakeFails 5),
   Call.ReturnBrokenConnBridge peerB (some 2), Call.ReturnConnBridge peerA (some 1)]

/-! ## Handing back and getting again -/

/-- `Init(2)`, two connections to `peerA` made, the first handed back, the
second still held. -/
def poolOneIdle : ClientConnectionPool :=
  run (Init zeroPool 2)
    [Call.GetConnBridge peerA (extOk 1), Call.GetConnBridge peerA (extOk 2),
     Call.ReturnConnBridge peerA (some 1)]

/-! ## No connection in two hands -/

/-- The book kept beside the pool: the connections callers hold, those that
were discarded, and those that `bridge.NewBridge` has made so far. -/
structure Ledger where
  held : List BridgePtr
  discarded : List BridgePtr
  created : List BridgePtr
  deriving DecidableEq, Repr

/-- The book after a call. -/
def ledgerAfter (pool : ClientConnectionPool) (book : Ledger) : Call → Ledger
  | Call.GetConnBridge server ext =>
    { held :=
        if (GetConnBridge ext pool server).ret.2 = none then
          (GetConnBridge ext pool server).ret.1 :: book.held
        else book.held
      discarded := book.discarded
      created :=
        if Event.newBridge ext.bridge ∈ (GetConnBridge ext pool server).events then
          some ext.bridge :: book.created
        else book.created }
  | Call.ReturnConnBridge _ c =>
    { held := removeOne c book.held, discarded := book.discarded, created := book.created }
  | Call.ReturnBrokenConnBridge _ c =>
    { held := removeOne c book.held, discarded := c :: book.discarded, created := book.created }

/-- A call is permitted when the Bridge it makes, if it makes one, is none of
those made before, and when what it hands back or discards is held. -/
def permitted (pool : ClientConnectionPool) (book : Ledger) : Call → Bool
  | Call.GetConnBridge server ext =>
    decide (Event.newBridge ext.bridge ∈ (GetConnBridge ext pool server).events →
      some ext.bridge ∉ book.created)
  | Call.ReturnConnBridge _ c => decide (c ∈ book.held)
  | Call.ReturnBrokenConnBridge _ c => decide (c ∈ book.held)

/-- Every call of the sequence is permitted when it is made. -/
def permittedFrom (pool : ClientConnectionPool) (book : Ledger) : List Call → Bool
  | [] => true
  | c :: cs => permitted pool book c && permittedFrom (step pool c) (ledgerAfter pool book c) cs

/-- The book after a sequence of calls. -/
def ledgerRun (pool : ClientConnectionPool) (book : Ledger) : List Call → Ledger
  | [] => book
  | c :: cs => ledgerRun (step pool c) (ledgerAfter pool book c) cs

/-- The book of a pool just initialised. -/
def emptyLedger : Ledger := { held := [], discarded := [], created := [] }

/-- The idle lists and the hands of callers share no connection. -/
structure Exclusive (pool : ClientConnectionPool) (book : Ledger) : Prop where
  held_nodup : book.held.Nodup
  idle_nodup : ∀ q, (idleAt pool q).Nodup
  idle_not_held : ∀ q c, c ∈ idleAt pool q → c ∉ book.held
  idle_one_key : ∀ q r c, c ∈ idleAt pool q → c ∈ idleAt pool r → q = r
  held_created : ∀ c, c ∈ book.held → c ∈ book.created
  idle_created : ∀ q c, c ∈ idleAt pool q → c ∈ book.created
  discarded_created : ∀ c, c ∈ book.discarded → c ∈ book.created
  discarded_not_held : ∀ c, c ∈ book.discarded → c ∉ book.held
  discarded_not_idle : ∀ q c, c ∈ book.discarded → c ∉ idleAt pool q

/-! ## Sequences that also call `IncreaseActiveConnection` -/

/-- One call of any of the four exported methods that change the pool. -/
inductive PoolCall where
  | method (call : Call)
  | IncreaseActiveConnection (server : ExpireMember) (value : Int)
  deriving DecidableEq, Repr

/-- The pool after one call. -/
def stepAny (pool : ClientConnectionPool) : PoolCall → ClientConnectionPool
  | PoolCall.method call => step pool call
  | PoolCall.IncreaseActiveConnection server value =>
    (IncreaseActiveConnection pool server value).pool

/-- The pool after a sequence of calls. -/
def runAny (pool : ClientConnectionPool) (calls : List PoolCall) : ClientConnectionPool :=
  calls.foldl stepAny pool

/-- The sum of the values stored in a counter map. -/
def counterSum (m : GoMap Int) : Int :=
  (m.map Prod.snd).sum

/-- The keys of a map, in the order of its entries. -/
def mapKeys {V : Type} (m : GoMap V) : List String :=
  m.map Prod.fst

/-- The call passes the peer to `GetConnBridge` or to `ReturnConnBridge`, the
two methods that go through `getConnMap`. -/
def passesToGetConnMap (server : ExpireMember) : PoolCall → Bool
  | PoolCall.method (Call.GetConnBridge s _) =>
    decide (GetStorageServerUID s = GetStorageServerUID server)
  | PoolCall.method (Call.ReturnConnBridge s _) =>
    decide (GetStorageServerUID s = GetStorageServerUID server)
  | _ => false

/-- The handshake succeeds reporting a newly issued identifier, and
`app.CLIENT_TYPE` is `1`: the case in which `newConnection` calls
`libservice.UpdateTrackerSyncId`. -/
def Registers (ext : External) : Prop :=
  ext.dialErr = none ∧ ext.validateErr = none ∧ ext.isNew = true ∧ ext.CLIENT_TYPE = 1

instance (ext : External) : Decidable (Registers ext) := by
  unfold Registers
  infer_instance

/-- The dial succeeds, the handshake reports a new identifier, and the
registration call fails. -/
def extRegistrationFails (b : Nat) : External :=
  { dialErr := none, bridge := b, isNew := true, validateErr := none, uuid := "uuid"
    CLIENT_TYPE := 1, syncErr := some "tracker unreachable" }

/-- A sequence on two peers that also calls `IncreaseActiveConnection`. -/
def mixedCalls : List PoolCall :=
  [PoolCall.method (Call.GetConnBridge peerA (extOk 1)),
   PoolCall.IncreaseActiveConnection peerB 5,
   PoolCall.method (Call.ReturnConnBridge peerA (some 1)),
   PoolCall.IncreaseActiveConnection peerA (-3),
   PoolCall.method (Call.GetConnBridge peerB (extHandshakeFails 2))]

/-- The total counter and `base` plus the sum of the counters of the peers
differ by a multiple of `2^64`, and the counter map has one entry for a key at
most. -/
def Balanced (base : Int) (pool : ClientConnectionPool) : Prop :=
  pool.totalActiveConn % 18446744073709551616
    = (base + counterSum pool.activeConnCounter) % 18446744073709551616 ∧
  (mapKeys pool.activeConnCounter).Nodup

/-- The value passed to `IncreaseActiveConnection`, if the call is one, is a
value of the Go type `int`. -/
def PoolCall.valueInRange : PoolCall → Prop
  | PoolCall.method _ => True
  | PoolCall.IncreaseActiveConnection _ value => InRange value

instance (call : PoolCall) : Decidable call.valueInRange := by
  cases call <;> unfold PoolCall.valueInRange <;> infer_instance

/-- A connection made and then discarded twice. -/
def doubleDiscard : List Call :=
  [Call.GetConnBridge peerA (extOk 1), Call.ReturnBrokenConnBridge peerA (some 1),
   Call.ReturnBrokenConnBridge peerA (some 1)]

/-! ## Keys of peers -/

/-- The number that a list of decimal digits writes. -/
def digitsValue (xs : List Char) : Nat :=
  xs.foldl (fun a c => a * 10 + (c.toNat - 48)) 0

/-- The text has no colon in it. -/
def NoColon (s : String) : Prop := ':' ∉ s.data

instance (s : String) : Decidable (NoColon s) := by
  unfold NoColon
  infer_instance

/-- A peer whose group has a colon in it. -/
def peerColonGroup : ExpireMember :=
  { AdvertiseAddr := "10.0.0.1", Port := 1024, Group := "G01:x", InstanceId := "s1" }

/-- Another peer, with the same key as `peerColonGroup`. -/
def peerColonInstance : ExpireMember :=
  { AdvertiseAddr := "10.0.0.1", Port := 1024, Group := "G01", InstanceId := "x:s1" }

/-! ## Pools with a counter at an end of the `int` range -/

/-- A connection handed back for `peerA`, then `2^63 + 1` discards of it. -/
def longDiscards : List Call :=
  Call.ReturnConnBridge peerA (some 1) ::
    List.replicate 9223372036854775809 (Call.ReturnBrokenConnBridge peerA (some 1))

/-- `Init(2)`, then `IncreaseActiveConnection(peerB, maxInt)`: the total counter
is at the largest value of `int`. -/
def poolTotalAtMax : ClientConnectionPool :=
  runAny (Init zeroPool 2) [PoolCall.IncreaseActiveConnection peerB maxInt]

/-- `Init(2)`, a connection handed back for `peerA`, then
`IncreaseActiveConnection(peerA, minInt)`: the counter of `peerA` and the total
counter are at the smallest value of `int`. -/
def poolCounterAtMin : ClientConnectionPool :=
  runAny (Init zeroPool 2)
    [PoolCall.method (Call.ReturnConnBridge peerA (some 1)),
     PoolCall.IncreaseActiveConnection peerA minInt]

/-- `Init(2)`, then `IncreaseActiveConnection(peerA, maxInt)`: the counter of
`peerA` is at the largest value of `int`. -/
def poolCounterAtMax : ClientConnectionPool :=
  runAny (Init zeroPool 2) [PoolCall.IncreaseActiveConnection peerA maxInt]

/-- Two calls of `IncreaseActiveConnection` that take the total counter over
the largest value of `int`. -/
def overflowCalls : List PoolCall :=
  [PoolCall.IncreaseActiveConnection peerA maxInt, PoolCall.IncreaseActiveConnection peerB 1]

/-- `Init(3)`, a connection made for each of `peerA` and `peerB`, the one of
`peerB` handed back. -/
def poolBothPeers : ClientConnectionPool :=
  run (Init zeroPool 3)
    [Call.GetConnBridge peerA (extOk 1), Call.GetConnBridge peerB (extOk 2),
     Call.ReturnConnBridge peerB (some 2)]

/-! # Theorems -/

/-! ## Lemmas on the addition of Go -/

theorem wrapInt_of_InRange (x : Int) (h : InRange x) : wrapInt x = x := by
  unfold InRange minInt maxInt at h
  unfold wrapInt
  omega

theorem InRange_wrapInt (x : Int) : InRange (wrapInt x) := by
  unfold InRange minInt maxInt wrapInt
  omega

theorem wrapInt_emod (x : Int) :
    wrapInt x % 18446744073709551616 = x % 18446744073709551616 := by
  unfold wrapInt
  omega

@[simp]
theorem addInt_zero (a : Int) : addInt a 0 = a := by
  unfold addInt
  split
  · rename_i h
    rw [Int.add_zero]
    exact wrapInt_of_InRange a h.1
  · simp

theorem addInt_of_InRange (a b : Int) (h : InRange (a + b)) : addInt a b = a + b := by
  unfold addInt
  split
  · exact wrapInt_of_InRange _ h
  · rfl

theorem addInt_one (a : Int) (h : a ≠ maxInt) : addInt a 1 = a + 1 := by
  unfold addInt
  split
  · rename_i hr
    apply wrapInt_of_InRange
    unfold InRange minInt maxInt at *
    omega
  · rfl

theorem addInt_neg_one (a : Int) (h : a ≠ minInt) : addInt a (-1) = a - 1 := by
  unfold addInt
  split
  · rename_i hr
    have hw : wrapInt (a + -1) = a + -1 := by
      apply wrapInt_of_InRange
      unfold InRange minInt maxInt at *
      omega
    rw [hw]
    omega
  · omega

theorem addInt_emod (a b : Int) :
    addInt a b % 18446744073709551616 = (a + b) % 18446744073709551616 := by
  unfold addInt
  split
  · exact wrapInt_emod _
  · rfl

theorem InRange_addInt (a b : Int) (ha : InRange a) (hb : InRange b) :
    InRange (addInt a b) := by
  unfold addInt
  rw [if_pos ⟨ha, hb⟩]
  exact InRange_wrapInt _

/-! ## Lemmas on maps -/

theorem mapGet_mapSet_same {V : Type} (m : GoMap V) (k : String) (v : V) :
    mapGet (mapSet m k v) k = some v := by
  induction m with
  | nil => simp [mapSet, mapGet]
  | cons hd tl ih =>
    obtain ⟨k1, v1⟩ := hd
    by_cases h : k1 = k
    · simp [mapSet, mapGet, h]
    · simp [mapSet, mapGet, h, ih]

theorem mapGet_mapSet_other {V : Type} (m : GoMap V) (k q : String) (v : V) (h : q ≠ k) :
    mapGet (mapSet m k v) q = mapGet m q := by
  induction m with
  | nil => simp [mapSet, mapGet, Ne.symm h]
  | cons hd tl ih =>
    obtain ⟨k1, v1⟩ := hd
    by_cases h1 : k1 = k
    · subst h1
      simp [mapSet, mapGet, Ne.symm h]
    · by_cases h2 : k1 = q
      · subst h2
        simp [mapSet, mapGet, h1]
      · simp [mapSet, mapGet, h1, h2, ih]

/-! ## What each method does to the observations -/

theorem idleAt_mapSet (pool : ClientConnectionPool) (k q : String) (l : List BridgePtr) :
    idleAt { pool with connMap := mapSet pool.connMap k l } q = if q = k then l else idleAt pool q := by
  by_cases h : q = k
  · subst h
    simp [idleAt, mapGet_mapSet_same]
  · simp [idleAt, mapGet_mapSet_other _ _ _ _ h, h]

theorem activeAt_mapSet (pool : ClientConnectionPool) (k q : String) (v t : Int) :
    activeAt { pool with activeConnCounter := mapSet pool.activeConnCounter k v, totalActiveConn := t } q
      = if q = k then v else activeAt pool q := by
  by_cases h : q = k
  · subst h
    simp [activeAt, mapGet_mapSet_same]
  · simp [activeAt, mapGet_mapSet_other _ _ _ _ h, h]

theorem IncreaseActiveConnection_ret (pool : ClientConnectionPool) (server : ExpireMember)
    (value : Int) :
    (IncreaseActiveConnection pool server value).ret
      = addInt (activeCount pool server) value := rfl

theorem IncreaseActiveConnection_activeAt (pool : ClientConnectionPool) (server : ExpireMember)
    (value : Int) (q : String) :
    activeAt (IncreaseActiveConnection pool server value).pool q
      = if q = GetStorageServerUID server then addInt (activeAt pool q) value
        else activeAt pool q := by
  unfold IncreaseActiveConnection
  simp only [activeAt_mapSet]
  by_cases h : q = GetStorageServerUID server
  · simp [h, activeAt]
  · simp [h]

theorem IncreaseActiveConnection_total (pool : ClientConnectionPool) (server : ExpireMember)
    (value : Int) :
    (IncreaseActiveConnection pool server value).pool.totalActiveConn
      = addInt pool.totalActiveConn value := rfl

theorem IncreaseActiveConnection_connMap (pool : ClientConnectionPool) (server : ExpireMember)
    (value : Int) :
    (IncreaseActiveConnection pool server value).pool.connMap = pool.connMap := rfl

theorem IncreaseActiveConnection_cap (pool : ClientConnectionPool) (server : ExpireMember)
    (value : Int) :
    (IncreaseActiveConnection pool server value).pool.maxConnPerServer = pool.maxConnPerServer := rfl

theorem IncreaseActiveConnection_idleAt (pool : ClientConnectionPool) (server : ExpireMember)
    (value : Int) (q : String) :
    idleAt (IncreaseActiveConnection pool server value).pool q = idleAt pool q := rfl

theorem getConnMap_ret (pool : ClientConnectionPool) (server : ExpireMember) :
    (getConnMap pool server).ret = idleList pool server := rfl

theorem getConnMap_idleAt (pool : ClientConnectionPool) (server : ExpireMember) (q : String) :
    idleAt (getConnMap pool server).pool q = idleAt pool q := by
  unfold getConnMap
  simp only [idleAt_mapSet]
  by_cases h : q = GetStorageServerUID server
  · simp [h, idleAt]
  · simp [h]

theorem getConnMap_stored (pool : ClientConnectionPool) (server : ExpireMember) :
    mapGet (getConnMap pool server).pool.connMap (GetStorageServerUID server)
      = some (idleList pool server) := by
  simp [getConnMap, mapGet_mapSet_same, idleList, idleAt]

theorem getConnMap_counter (pool : ClientConnectionPool) (server : ExpireMember) :
    (getConnMap pool server).pool.activeConnCounter = pool.activeConnCounter := rfl

theorem getConnMap_total (pool : ClientConnectionPool) (server : ExpireMember) :
    (getConnMap pool server).pool.totalActiveConn = pool.totalActiveConn := rfl

theorem getConnMap_cap (pool : ClientConnectionPool) (server : ExpireMember) :
    (getConnMap pool server).pool.maxConnPerServer = pool.maxConnPerServer := rfl

theorem getConnMap_activeAt (pool : ClientConnectionPool) (server : ExpireMember) (q : String) :
    activeAt (getConnMap pool server).pool q = activeAt pool q := rfl

/-- The cache hit of `GetConnBridge`, in full. -/
theorem GetConnBridge_hit (ext : External) (pool : ClientConnectionPool) (server : ExpireMember)
    (front : BridgePtr) (rest : List BridgePtr) (h : idleList pool server = front :: rest) :
    GetConnBridge ext pool server =
      { ret := (front, none)
        pool := { (getConnMap pool server).pool with
          connMap := mapSet (getConnMap pool server).pool.connMap (GetStorageServerUID server) rest }
        events := [], panicked := false } := by
  have h1 : (getConnMap pool server).ret = front :: rest := by rw [getConnMap_ret, h]
  unfold GetConnBridge
  simp only [h1]

/-- The refusal of `GetConnBridge`, in full. -/
theorem GetConnBridge_full (ext : External) (pool : ClientConnectionPool) (server : ExpireMember)
    (h : idleList pool server = []) (hc : pool.maxConnPerServer ≤ activeCount pool server) :
    GetConnBridge ext pool server =
      { ret := (none, some GoError.MAX_CONN_EXCEED_ERROR)
        pool := (IncreaseActiveConnection (getConnMap pool server).pool server 0).pool
        events := [Event.increaseActiveConnection (GetStorageServerUID server) 0]
        panicked := false } := by
  have h1 : (getConnMap pool server).ret = [] := by rw [getConnMap_ret, h]
  have h2 : ¬ ((IncreaseActiveConnection (getConnMap pool server).pool server 0).ret
      < (IncreaseActiveConnection (getConnMap pool server).pool server 0).pool.maxConnPerServer) := by
    rw [IncreaseActiveConnection_ret, IncreaseActiveConnection_cap, getConnMap_cap, addInt_zero]
    simp only [activeCount, getConnMap_activeAt] at *
    omega
  unfold GetConnBridge
  simp only [h1, h2, if_false]
  rfl

/-- The dialling branch of `GetConnBridge`, in full. -/
theorem GetConnBridge_dial (ext : External) (pool : ClientConnectionPool) (server : ExpireMember)
    (h : idleList pool server = []) (hc : activeCount pool server < pool.maxConnPerServer) :
    GetConnBridge ext pool server =
      { newConnection ext (IncreaseActiveConnection (getConnMap pool server).pool server 0).pool server with
        events := Event.increaseActiveConnection (GetStorageServerUID server) 0 ::
          (newConnection ext (IncreaseActiveConnection (getConnMap pool server).pool server 0).pool
            server).events } := by
  have h1 : (getConnMap pool server).ret = [] := by rw [getConnMap_ret, h]
  have h2 : (IncreaseActiveConnection (getConnMap pool server).pool server 0).ret
      < (IncreaseActiveConnection (getConnMap pool server).pool server 0).pool.maxConnPerServer := by
    rw [IncreaseActiveConnection_ret, IncreaseActiveConnection_cap, getConnMap_cap, addInt_zero]
    simp only [activeCount, getConnMap_activeAt] at *
    omega
  unfold GetConnBridge
  simp only [h1, h2, if_true]
  rfl

theorem newConnection_success (ext : External) (pool : ClientConnectionPool)
    (server : ExpireMember) (h : AllSucceed ext) :
    (newConnection ext pool server).ret = (some ext.bridge, none) ∧
    (newConnection ext pool server).pool = (IncreaseActiveConnection pool server 1).pool ∧
    (newConnection ext pool server).panicked = false := by
  obtain ⟨h1, h2, h3⟩ := h
  unfold newConnection
  simp only [h1, h2]
  by_cases hn : ext.isNew = true ∧ ext.CLIENT_TYPE = 1
  · simp [hn, h3 hn]
  · simp [hn]

theorem newConnection_failure (ext : External) (pool : ClientConnectionPool)
    (server : ExpireMember) (e : String) (h : FailsWith ext e) :
    (newConnection ext pool server).ret = (none, some (GoError.external e)) ∧
    (newConnection ext pool server).pool = pool ∧
    (newConnection ext pool server).panicked = false := by
  unfold newConnection
  rcases h with h | ⟨h1, h2⟩ | ⟨h1, h2, h3, h4, h5⟩
  · simp [h]
  · simp [h1, h2]
  · simp [h1, h2, h3, h4, h5]

theorem newConnection_error_external (ext : External) (pool : ClientConnectionPool)
    (server : ExpireMember) :
    (newConnection ext pool server).ret.2 ≠ some GoError.MAX_CONN_EXCEED_ERROR := by
  unfold newConnection
  split
  · simp
  · split
    · simp
    · split
      · split <;> simp
      · simp

theorem newConnection_panicked (ext : External) (pool : ClientConnectionPool)
    (server : ExpireMember) : (newConnection ext pool server).panicked = false := by
  unfold newConnection
  split
  · rfl
  · split
    · rfl
    · split
      · split <;> rfl
      · rfl

/-- Every run of `newConnection` either leaves the pool as it is, or adds one
to the counters of the peer and returns the Bridge it made. -/
theorem newConnection_pool_cases (ext : External) (pool : ClientConnectionPool)
    (server : ExpireMember) :
    ((newConnection ext pool server).pool = pool ∧ (newConnection ext pool server).ret.1 = none ∧
      (newConnection ext pool server).ret.2 ≠ none) ∨
    ((newConnection ext pool server).pool = (IncreaseActiveConnection pool server 1).pool ∧
      (newConnection ext pool server).ret = (some ext.bridge, none)) := by
  unfold newConnection
  split
  · simp
  · split
    · simp
    · split
      · split <;> simp
      · simp

/-! ## Single calls -/

/-- C3. When the idle list of the peer is `front :: rest`, `GetConnBridge`
returns `front` with a nil error, leaves `rest` as the idle list of the peer,
makes no outside call at all (so no dial), and leaves the active counter of the
peer and the total counter as they were. -/
theorem GetConnBridge_returns_idle_front (ext : External) (pool : ClientConnectionPool)
    (server : ExpireMember) (front : BridgePtr) (rest : List BridgePtr)
    (h : idleList pool server = front :: rest) :
    (GetConnBridge ext pool server).ret = (front, none) ∧
    idleList (GetConnBridge ext pool server).pool server = rest ∧
    (GetConnBridge ext pool server).events = [] ∧
    activeCount (GetConnBridge ext pool server).pool server = activeCount pool server ∧
    (GetConnBridge ext pool server).pool.totalActiveConn = pool.totalActiveConn ∧
    (GetConnBridge ext pool server).panicked = false := by
  rw [GetConnBridge_hit ext pool server front rest h]
  refine ⟨rfl, ?_, rfl, rfl, rfl, rfl⟩
  simp [idleList, idleAt_mapSet]

theorem GetConnBridge_returns_idle_front_witness :
    idleList poolTwoIdle peerA = some 1 :: [some 2] ∧
    (GetConnBridge extDialFails poolTwoIdle peerA).ret = (some 1, none) ∧
    idleList (GetConnBridge extDialFails poolTwoIdle peerA).pool peerA = [some 2] ∧
    (GetConnBridge extDialFails poolTwoIdle peerA).events = [] ∧
    activeCount (GetConnBridge extDialFails poolTwoIdle peerA).pool peerA
      = activeCount poolTwoIdle peerA ∧
    (GetConnBridge extDialFails poolTwoIdle peerA).pool.totalActiveConn
      = poolTwoIdle.totalActiveConn ∧
    (GetConnBridge extDialFails poolTwoIdle peerA).panicked = false :=
  ⟨by decide,
   GetConnBridge_returns_idle_front extDialFails poolTwoIdle peerA (some 1) [some 2] (by decide)⟩

/-- C4, as the code has it. When the idle list of the peer is empty, its
active counter is below the cap (a value of `int`), and dial, handshake and
(when made) registration succeed, `GetConnBridge` returns the Bridge just made
with a nil error, the active counter of the peer is one more than before, the
total counter is one more than before unless it was at the largest value of
`int`, from which it wraps around to the smallest, and the idle list of the
peer is still empty. -/
theorem GetConnBridge_creates_connection (ext : External) (pool : ClientConnectionPool)
    (server : ExpireMember) (h : idleList pool server = [])
    (hc : activeCount pool server < pool.maxConnPerServer) (hs : AllSucceed ext)
    (hcap : pool.maxConnPerServer ≤ maxInt) :
    (GetConnBridge ext pool server).ret = (some ext.bridge, none) ∧
    activeCount (GetConnBridge ext pool server).pool server = activeCount pool server + 1 ∧
    (GetConnBridge ext pool server).pool.totalActiveConn = addInt pool.totalActiveConn 1 ∧
    (pool.totalActiveConn ≠ maxInt →
      (GetConnBridge ext pool server).pool.totalActiveConn = pool.totalActiveConn + 1) ∧
    (pool.totalActiveConn = maxInt →
      (GetConnBridge ext pool server).pool.totalActiveConn = minInt) ∧
    idleList (GetConnBridge ext pool server).pool server = [] ∧
    (GetConnBridge ext pool server).panicked = false := by
  rw [GetConnBridge_dial ext pool server h hc]
  obtain ⟨h1, h2, h3⟩ := newConnection_success ext
    (IncreaseActiveConnection (getConnMap pool server).pool server 0).pool server hs
  have htot : (IncreaseActiveConnection
      (IncreaseActiveConnection (getConnMap pool server).pool server 0).pool server 1).pool.totalActiveConn
      = addInt pool.totalActiveConn 1 := by
    simp only [IncreaseActiveConnection_total, getConnMap_total, addInt_zero]
  refine ⟨h1, ?_, ?_, ?_, ?_, ?_, h3⟩
  · simp only [h2, activeCount, IncreaseActiveConnection_activeAt, getConnMap_activeAt]
    simp only [if_true, addInt_zero]
    apply addInt_one
    unfold activeCount at hc
    omega
  · simp only [h2]
    exact htot
  · intro hne
    simp only [h2]
    rw [htot]
    exact addInt_one _ hne
  · intro heq
    simp only [h2]
    rw [htot, heq]
    decide
  · simp only [h2, idleList, IncreaseActiveConnection_idleAt, getConnMap_idleAt]
    exact h

theorem GetConnBridge_creates_connection_witness :
    (idleList (Init zeroPool 2) peerA = [] ∧
      activeCount (Init zeroPool 2) peerA < (Init zeroPool 2).maxConnPerServer ∧
      AllSucceed (extOk 1) ∧ (Init zeroPool 2).maxConnPerServer ≤ maxInt) ∧
    (GetConnBridge (extOk 1) (Init zeroPool 2) peerA).ret = (some (extOk 1).bridge, none) ∧
    activeCount (GetConnBridge (extOk 1) (Init zeroPool 2) peerA).pool peerA
      = activeCount (Init zeroPool 2) peerA + 1 ∧
    (GetConnBridge (extOk 1) (Init zeroPool 2) peerA).pool.totalActiveConn
      = addInt (Init zeroPool 2).totalActiveConn 1 ∧
    ((Init zeroPool 2).totalActiveConn ≠ maxInt →
      (GetConnBridge (extOk 1) (Init zeroPool 2) peerA).pool.totalActiveConn
        = (Init zeroPool 2).totalActiveConn + 1) ∧
    ((Init zeroPool 2).totalActiveConn = maxInt →
      (GetConnBridge (extOk 1) (Init zeroPool 2) peerA).pool.totalActiveConn = minInt) ∧
    idleList (GetConnBridge (extOk 1) (Init zeroPool 2) peerA).pool peerA = [] ∧
    (GetConnBridge (extOk 1) (Init zeroPool 2) peerA).panicked = false :=
  ⟨by decide,
   GetConnBridge_creates_connection (extOk 1) (Init zeroPool 2) peerA (by decide) (by decide)
     (by decide) (by decide)⟩

/-- C4 as stated fails: after `Init(2)` and `IncreaseActiveConnection(peerB, maxInt)`
the total counter is at the largest value of `int`; a `GetConnBridge(peerA)`
that makes a connection then leaves it at the smallest value, not one more. -/
theorem GetConnBridge_total_wraps_counterexample :
    idleList poolTotalAtMax peerA = [] ∧
    activeCount poolTotalAtMax peerA < poolTotalAtMax.maxConnPerServer ∧
    AllSucceed (extOk 1) ∧
    poolTotalAtMax.totalActiveConn = 9223372036854775807 ∧
    (GetConnBridge (extOk 1) poolTotalAtMax peerA).ret = (some 1, none) ∧
    (GetConnBridge (extOk 1) poolTotalAtMax peerA).pool.totalActiveConn
      = -9223372036854775808 ∧
    (GetConnBridge (extOk 1) poolTotalAtMax peerA).pool.totalActiveConn
      ≠ poolTotalAtMax.totalActiveConn + 1 := by
  decide

/-- C5. `GetConnBridge` fails with `MAX_CONN_EXCEED_ERROR` exactly when the
idle list of the peer is empty and its active counter is at or above the cap;
then no connection is returned, no dial is made, and the counter of every
peer, the total counter and every idle list keep their values. -/
theorem GetConnBridge_max_conn_exceed_iff (ext : External) (pool : ClientConnectionPool)
    (server : ExpireMember) :
    ((GetConnBridge ext pool server).ret.2 = some GoError.MAX_CONN_EXCEED_ERROR ↔
      idleList pool server = [] ∧ pool.maxConnPerServer ≤ activeCount pool server) ∧
    ((GetConnBridge ext pool server).ret.2 = some GoError.MAX_CONN_EXCEED_ERROR →
      (GetConnBridge ext pool server).ret.1 = none ∧
      (∀ address, Event.dial address ∉ (GetConnBridge ext pool server).events) ∧
      (∀ q, activeAt (GetConnBridge ext pool server).pool q = activeAt pool q) ∧
      (GetConnBridge ext pool server).pool.totalActiveConn = pool.totalActiveConn ∧
      (∀ q, idleAt (GetConnBridge ext pool server).pool q = idleAt pool q)) := by
  have key : (GetConnBridge ext pool server).ret.2 = some GoError.MAX_CONN_EXCEED_ERROR →
      idleList pool server = [] ∧ pool.maxConnPerServer ≤ activeCount pool server := by
    intro hr
    cases hl : idleList pool server with
    | cons front rest =>
      rw [GetConnBridge_hit ext pool server front rest hl] at hr
      simp at hr
    | nil =>
      refine ⟨rfl, ?_⟩
      by_contra hlt
      rw [GetConnBridge_dial ext pool server hl (lt_of_not_le hlt)] at hr
      exact newConnection_error_external _ _ _ hr
  refine ⟨⟨key, ?_⟩, ?_⟩
  · rintro ⟨hl, hc⟩
    rw [GetConnBridge_full ext pool server hl hc]
  · intro hr
    obtain ⟨hl, hc⟩ := key hr
    rw [GetConnBridge_full ext pool server hl hc]
    refine ⟨rfl, ?_, ?_, ?_, ?_⟩
    · intro address
      simp
    · intro q
      simp only [IncreaseActiveConnection_activeAt, getConnMap_activeAt]
      simp
    · simp only [IncreaseActiveConnection_total, getConnMap_total]
      simp
    · intro q
      simp only [IncreaseActiveConnection_idleAt, getConnMap_idleAt]

theorem GetConnBridge_max_conn_exceed_iff_witness :
    (GetConnBridge (extOk 3) poolTwoHeld peerA).ret = (none, some GoError.MAX_CONN_EXCEED_ERROR) ∧
    (∀ address, Event.dial address ∉ (GetConnBridge (extOk 3) poolTwoHeld peerA).events) ∧
    (∀ q, activeAt (GetConnBridge (extOk 3) poolTwoHeld peerA).pool q = activeAt poolTwoHeld q) ∧
    (GetConnBridge (extOk 3) poolTwoHeld peerA).pool.totalActiveConn
      = poolTwoHeld.totalActiveConn ∧
    (∀ q, idleAt (GetConnBridge (extOk 3) poolTwoHeld peerA).pool q = idleAt poolTwoHeld q) :=
  ⟨by decide,
   ((GetConnBridge_max_conn_exceed_iff (extOk 3) poolTwoHeld peerA).2 (by decide)).2⟩

/-- C6. When `GetConnBridge` reaches the creation of a connection (empty idle
list, active counter below the cap) and the dial, the handshake or the
registration call fails with the error `e`, it returns `(nil, e)` and the
active counter of every peer, the total counter and the contents of every idle
list are as before the call. -/
theorem GetConnBridge_creation_failure (ext : External) (pool : ClientConnectionPool)
    (server : ExpireMember) (e : String) (h : idleList pool server = [])
    (hc : activeCount pool server < pool.maxConnPerServer) (hf : FailsWith ext e) :
    (GetConnBridge ext pool server).ret = (none, some (GoError.external e)) ∧
    (∀ q, activeAt (GetConnBridge ext pool server).pool q = activeAt pool q) ∧
    (GetConnBridge ext pool server).pool.totalActiveConn = pool.totalActiveConn ∧
    (∀ q, idleAt (GetConnBridge ext pool server).pool q = idleAt pool q) ∧
    (GetConnBridge ext pool server).pool.maxConnPerServer = pool.maxConnPerServer := by
  rw [GetConnBridge_dial ext pool server h hc]
  obtain ⟨h1, h2, -⟩ := newConnection_failure ext
    (IncreaseActiveConnection (getConnMap pool server).pool server 0).pool server e hf
  refine ⟨h1, ?_, ?_, ?_, ?_⟩
  · intro q
    simp only [h2, IncreaseActiveConnection_activeAt, getConnMap_activeAt]
    simp
  · simp only [h2, IncreaseActiveConnection_total, getConnMap_total]
    simp
  · intro q
    simp only [h2, IncreaseActiveConnection_idleAt, getConnMap_idleAt]
  · simp only [h2, IncreaseActiveConnection_cap, getConnMap_cap]

theorem GetConnBridge_creation_failure_witness :
    (idleList (Init zeroPool 2) peerA = [] ∧
      activeCount (Init zeroPool 2) peerA < (Init zeroPool 2).maxConnPerServer ∧
      FailsWith (extHandshakeFails 1) "validate failed") ∧
    (GetConnBridge (extHandshakeFails 1) (Init zeroPool 2) peerA).ret
      = (none, some (GoError.external "validate failed")) ∧
    (∀ q, activeAt (GetConnBridge (extHandshakeFails 1) (Init zeroPool 2) peerA).pool q
      = activeAt (Init zeroPool 2) q) ∧
    (GetConnBridge (extHandshakeFails 1) (Init zeroPool 2) peerA).pool.totalActiveConn
      = (Init zeroPool 2).totalActiveConn ∧
    (∀ q, idleAt (GetConnBridge (extHandshakeFails 1) (Init zeroPool 2) peerA).pool q
      = idleAt (Init zeroPool 2) q) ∧
    (GetConnBridge (extHandshakeFails 1) (Init zeroPool 2) peerA).pool.maxConnPerServer
      = (Init zeroPool 2).maxConnPerServer :=
  ⟨by decide,
   GetConnBridge_creation_failure (extHandshakeFails 1) (Init zeroPool 2) peerA "validate failed"
     (by decide) (by decide) (by decide)⟩

/-- C7. `ReturnConnBridge(peer, c)` leaves as idle list of the peer the old
idle list with `c` appended at the back, and leaves the active counter of the
peer and the total counter as they were. -/
theorem ReturnConnBridge_appends (pool : ClientConnectionPool) (server : ExpireMember)
    (c : BridgePtr) :
    idleList (ReturnConnBridge pool server c).pool server = idleList pool server ++ [c] ∧
    activeCount (ReturnConnBridge pool server c).pool server = activeCount pool server ∧
    (ReturnConnBridge pool server c).pool.totalActiveConn = pool.totalActiveConn ∧
    (ReturnConnBridge pool server c).panicked = false := by
  refine ⟨?_, rfl, rfl, rfl⟩
  unfold ReturnConnBridge
  simp [idleList, idleAt_mapSet, getConnMap_ret]

/-- C8, as the code has it. When `connMap` has an entry for the peer,
`ReturnBrokenConnBridge(peer, c)` closes `c` (the one call it makes outside the
pool), makes the active counter of the peer and the total counter each one
less, except that a counter at the smallest value of `int` wraps around to the
largest, leaves `connMap` and so every idle list as it was, and ends without a
panic. -/
theorem ReturnBrokenConnBridge_discards (pool : ClientConnectionPool) (server : ExpireMember)
    (c : BridgePtr) (h : mapGet pool.connMap (GetStorageServerUID server) ≠ none) :
    (ReturnBrokenConnBridge pool server c).events
      = [Event.close c, Event.increaseActiveConnection (GetStorageServerUID server) (-1)] ∧
    activeCount (ReturnBrokenConnBridge pool server c).pool server
      = addInt (activeCount pool server) (-1) ∧
    (ReturnBrokenConnBridge pool server c).pool.totalActiveConn
      = addInt pool.totalActiveConn (-1) ∧
    (activeCount pool server ≠ minInt →
      activeCount (ReturnBrokenConnBridge pool server c).pool server
        = activeCount pool server - 1) ∧
    (pool.totalActiveConn ≠ minInt →
      (ReturnBrokenConnBridge pool server c).pool.totalActiveConn = pool.totalActiveConn - 1) ∧
    (activeCount pool server = minInt →
      activeCount (ReturnBrokenConnBridge pool server c).pool server = maxInt) ∧
    (pool.totalActiveConn = minInt →
      (ReturnBrokenConnBridge pool server c).pool.totalActiveConn = maxInt) ∧
    (ReturnBrokenConnBridge pool server c).pool.connMap = pool.connMap ∧
    (∀ q, idleAt (ReturnBrokenConnBridge pool server c).pool q = idleAt pool q) ∧
    (ReturnBrokenConnBridge pool server c).panicked = false := by
  have hcnt : activeCount (ReturnBrokenConnBridge pool server c).pool server
      = addInt (activeCount pool server) (-1) := by
    show activeAt (IncreaseActiveConnection pool server (-1)).pool (GetStorageServerUID server) = _
    rw [IncreaseActiveConnection_activeAt]
    simp [activeCount]
  have htot : (ReturnBrokenConnBridge pool server c).pool.totalActiveConn
      = addInt pool.totalActiveConn (-1) := rfl
  refine ⟨rfl, hcnt, htot, ?_, ?_, ?_, ?_, rfl, fun q => rfl, ?_⟩
  · intro hne
    rw [hcnt]
    exact addInt_neg_one _ hne
  · intro hne
    rw [htot]
    exact addInt_neg_one _ hne
  · intro heq
    rw [hcnt, heq]
    decide
  · intro heq
    rw [htot, heq]
    decide
  · show (mapGet pool.connMap (GetStorageServerUID server)).isNone = false
    cases hm : mapGet pool.connMap (GetStorageServerUID server) with
    | none => exact absurd hm h
    | some l => rfl

theorem ReturnBrokenConnBridge_discards_witness :
    mapGet poolTwoHeld.connMap (GetStorageServerUID peerA) ≠ none ∧
    (ReturnBrokenConnBridge poolTwoHeld peerA (some 2)).events
      = [Event.close (some 2), Event.increaseActiveConnection (GetStorageServerUID peerA) (-1)] ∧
    activeCount (ReturnBrokenConnBridge poolTwoHeld peerA (some 2)).pool peerA
      = addInt (activeCount poolTwoHeld peerA) (-1) ∧
    (ReturnBrokenConnBridge poolTwoHeld peerA (some 2)).pool.totalActiveConn
      = addInt poolTwoHeld.totalActiveConn (-1) ∧
    (activeCount poolTwoHeld peerA ≠ minInt →
      activeCount (ReturnBrokenConnBridge poolTwoHeld peerA (some 2)).pool peerA
        = activeCount poolTwoHeld peerA - 1) ∧
    (poolTwoHeld.totalActiveConn ≠ minInt →
      (ReturnBrokenConnBridge poolTwoHeld peerA (some 2)).pool.totalActiveConn
        = poolTwoHeld.totalActiveConn - 1) ∧
    (activeCount poolTwoHeld peerA = minInt →
      activeCount (ReturnBrokenConnBridge poolTwoHeld peerA (some 2)).pool peerA = maxInt) ∧
    (poolTwoHeld.totalActiveConn = minInt →
      (ReturnBrokenConnBridge poolTwoHeld peerA (some 2)).pool.totalActiveConn = maxInt) ∧
    (ReturnBrokenConnBridge poolTwoHeld peerA (some 2)).pool.connMap = poolTwoHeld.connMap ∧
    (∀ q, idleAt (ReturnBrokenConnBridge poolTwoHeld peerA (some 2)).pool q
      = idleAt poolTwoHeld q) ∧
    (ReturnBrokenConnBridge poolTwoHeld peerA (some 2)).panicked = false :=
  ⟨by decide, ReturnBrokenConnBridge_discards poolTwoHeld peerA (some 2) (by decide)⟩

/-- C8 as stated fails: after `Init(2)`, `ReturnConnBridge(peerA, 1)` and
`IncreaseActiveConnection(peerA, minInt)` the counter of `peerA` and the total
counter are at the smallest value of `int`; `ReturnBrokenConnBridge(peerA, 1)`
then leaves both at the largest value, not one less. -/
theorem ReturnBrokenConnBridge_wraps_counterexample :
    mapGet poolCounterAtMin.connMap (GetStorageServerUID peerA) ≠ none ∧
    activeCount poolCounterAtMin peerA = -9223372036854775808 ∧
    poolCounterAtMin.totalActiveConn = -9223372036854775808 ∧
    activeCount (ReturnBrokenConnBridge poolCounterAtMin peerA (some 1)).pool peerA
      = 9223372036854775807 ∧
    (ReturnBrokenConnBridge poolCounterAtMin peerA (some 1)).pool.totalActiveConn
      = 9223372036854775807 ∧
    activeCount (ReturnBrokenConnBridge poolCounterAtMin peerA (some 1)).pool peerA
      ≠ activeCount poolCounterAtMin peerA - 1 ∧
    (ReturnBrokenConnBridge poolCounterAtMin peerA (some 1)).pool.totalActiveConn
      ≠ poolCounterAtMin.totalActiveConn - 1 := by
  decide

/-! ## The active counter along a sequence of calls -/

theorem ReturnConnBridge_activeAt (pool : ClientConnectionPool) (server : ExpireMember)
    (c : BridgePtr) (q : String) :
    activeAt (ReturnConnBridge pool server c).pool q = activeAt pool q := rfl

theorem ReturnConnBridge_cap (pool : ClientConnectionPool) (server : ExpireMember)
    (c : BridgePtr) :
    (ReturnConnBridge pool server c).pool.maxConnPerServer = pool.maxConnPerServer := rfl

theorem ReturnConnBridge_idleAt (pool : ClientConnectionPool) (server : ExpireMember)
    (c : BridgePtr) (q : String) :
    idleAt (ReturnConnBridge pool server c).pool q
      = if q = GetStorageServerUID server then idleAt pool q ++ [c] else idleAt pool q := by
  unfold ReturnConnBridge
  simp only [idleAt_mapSet, getConnMap_ret, getConnMap_idleAt]
  by_cases h : q = GetStorageServerUID server
  · simp [h, idleList]
  · simp [h]

theorem ReturnBrokenConnBridge_activeAt (pool : ClientConnectionPool) (server : ExpireMember)
    (c : BridgePtr) (q : String) :
    activeAt (ReturnBrokenConnBridge pool server c).pool q
      = if q = GetStorageServerUID server then addInt (activeAt pool q) (-1)
        else activeAt pool q := by
  show activeAt (IncreaseActiveConnection pool server (-1)).pool q = _
  rw [IncreaseActiveConnection_activeAt]

theorem ReturnBrokenConnBridge_cap (pool : ClientConnectionPool) (server : ExpireMember)
    (c : BridgePtr) :
    (ReturnBrokenConnBridge pool server c).pool.maxConnPerServer = pool.maxConnPerServer := rfl

theorem ReturnBrokenConnBridge_idleAt (pool : ClientConnectionPool) (server : ExpireMember)
    (c : BridgePtr) (q : String) :
    idleAt (ReturnBrokenConnBridge pool server c).pool q = idleAt pool q := rfl

/-- The three ways a `GetConnBridge` can end, with the pool each leaves. -/
theorem GetConnBridge_cases (ext : External) (pool : ClientConnectionPool)
    (server : ExpireMember) :
    (∃ front rest, idleList pool server = front :: rest ∧
      (GetConnBridge ext pool server).ret = (front, none) ∧
      (GetConnBridge ext pool server).events = [] ∧
      (∀ q, idleAt (GetConnBridge ext pool server).pool q
        = if q = GetStorageServerUID server then rest else idleAt pool q) ∧
      (∀ q, activeAt (GetConnBridge ext pool server).pool q = activeAt pool q)) ∨
    (idleList pool server = [] ∧
      (GetConnBridge ext pool server).ret.1 = none ∧
      (GetConnBridge ext pool server).ret.2 ≠ none ∧
      (∀ q, idleAt (GetConnBridge ext pool server).pool q = idleAt pool q) ∧
      (∀ q, activeAt (GetConnBridge ext pool server).pool q = activeAt pool q)) ∨
    (idleList pool server = [] ∧ activeCount pool server < pool.maxConnPerServer ∧
      (GetConnBridge ext pool server).ret = (some ext.bridge, none) ∧
      Event.newBridge ext.bridge ∈ (GetConnBridge ext pool server).events ∧
      (∀ q, idleAt (GetConnBridge ext pool server).pool q = idleAt pool q) ∧
      (∀ q, activeAt (GetConnBridge ext pool server).pool q
        = if q = GetStorageServerUID server then addInt (activeAt pool q) 1
          else activeAt pool q)) := by
  cases hl : idleList pool server with
  | cons front rest =>
    left
    refine ⟨front, rest, rfl, ?_⟩
    rw [GetConnBridge_hit ext pool server front rest hl]
    refine ⟨rfl, rfl, ?_, fun q => rfl⟩
    intro q
    simp only [idleAt_mapSet, getConnMap_idleAt]
  | nil =>
    right
    by_cases hc : activeCount pool server < pool.maxConnPerServer
    · rw [GetConnBridge_dial ext pool server hl hc]
      rcases newConnection_pool_cases ext
        (IncreaseActiveConnection (getConnMap pool server).pool server 0).pool server
        with ⟨h1, h2, h3⟩ | ⟨h1, h2⟩
      · left
        refine ⟨rfl, h2, h3, ?_, ?_⟩
        · intro q
          simp only [h1, IncreaseActiveConnection_idleAt, getConnMap_idleAt]
        · intro q
          simp only [h1, IncreaseActiveConnection_activeAt, getConnMap_activeAt]
          simp
      · right
        refine ⟨rfl, hc, h2, ?_, ?_, ?_⟩
        · have hs : AllSucceed ext := by
            unfold newConnection at h2
            unfold AllSucceed
            split at h2
            · simp at h2
            · split at h2
              · simp at h2
              · split at h2
                · split at h2
                  · simp at h2
                  · simp_all
                · simp_all
          simp only [List.mem_cons]
          right
          unfold newConnection
          obtain ⟨d1, d2, d3⟩ := hs
          simp only [d1, d2]
          split
          · rename_i hn
            simp [d3 hn]
          · simp
        · intro q
          simp only [h1, IncreaseActiveConnection_idleAt, getConnMap_idleAt]
        · intro q
          simp only [h1, IncreaseActiveConnection_activeAt, getConnMap_activeAt]
          simp
    · left
      rw [GetConnBridge_full ext pool server hl (le_of_not_lt hc)]
      refine ⟨rfl, rfl, by simp, ?_, ?_⟩
      · intro q
        simp only [IncreaseActiveConnection_idleAt, getConnMap_idleAt]
      · intro q
        simp only [IncreaseActiveConnection_activeAt, getConnMap_activeAt]
        simp

theorem GetConnBridge_cap (ext : External) (pool : ClientConnectionPool) (server : ExpireMember) :
    (GetConnBridge ext pool server).pool.maxConnPerServer = pool.maxConnPerServer := by
  cases hl : idleList pool server with
  | cons front rest =>
    rw [GetConnBridge_hit ext pool server front rest hl]
    rfl
  | nil =>
    by_cases hc : activeCount pool server < pool.maxConnPerServer
    · rw [GetConnBridge_dial ext pool server hl hc]
      rcases newConnection_pool_cases ext
        (IncreaseActiveConnection (getConnMap pool server).pool server 0).pool server
        with ⟨h1, -, -⟩ | ⟨h1, -⟩
      · simp only [h1, IncreaseActiveConnection_cap, getConnMap_cap]
      · simp only [h1, IncreaseActiveConnection_cap, getConnMap_cap]
    · rw [GetConnBridge_full ext pool server hl (le_of_not_lt hc)]
      rfl

theorem step_cap (pool : ClientConnectionPool) (c : Call) :
    (step pool c).maxConnPerServer = pool.maxConnPerServer := by
  cases c with
  | GetConnBridge server ext => exact GetConnBridge_cap ext pool server
  | ReturnConnBridge server b => rfl
  | ReturnBrokenConnBridge server b => rfl

/-- A call leaves the counter of a key at most at the cap and takes at most
one off it, when the counter is not at the smallest value of `int` and the
cap is a value of `int`. -/
theorem step_active_bounds (pool : ClientConnectionPool) (c : Call) (q : String)
    (h : activeAt pool q ≤ pool.maxConnPerServer) (hcap : pool.maxConnPerServer ≤ maxInt)
    (hlo : minInt < activeAt pool q) :
    activeAt (step pool c) q ≤ pool.maxConnPerServer ∧
    activeAt pool q - 1 ≤ activeAt (step pool c) q := by
  cases c with
  | GetConnBridge server ext =>
    show activeAt (GetConnBridge ext pool server).pool q ≤ _ ∧
      _ ≤ activeAt (GetConnBridge ext pool server).pool q
    rcases GetConnBridge_cases ext pool server with
      ⟨_, _, _, _, _, _, ha⟩ | ⟨_, _, _, _, ha⟩ | ⟨_, hc, _, _, _, ha⟩
    · rw [ha]; exact ⟨h, by omega⟩
    · rw [ha]; exact ⟨h, by omega⟩
    · rw [ha]
      by_cases hq : q = GetStorageServerUID server
      · subst hq
        simp only [if_true]
        unfold activeCount at hc
        rw [addInt_one _ (by omega)]
        omega
      · simp only [hq, if_false]
        exact ⟨h, by omega⟩
  | ReturnConnBridge server b => exact ⟨h, by show _ ≤ activeAt pool q; omega⟩
  | ReturnBrokenConnBridge server b =>
    show activeAt (ReturnBrokenConnBridge pool server b).pool q ≤ _ ∧
      _ ≤ activeAt (ReturnBrokenConnBridge pool server b).pool q
    rw [ReturnBrokenConnBridge_activeAt]
    split
    · rw [addInt_neg_one _ (by omega)]
      omega
    · omega

theorem Init_cap_range (pool : ClientConnectionPool) (n : Int) :
    1 ≤ (Init pool n).maxConnPerServer ∧ (Init pool n).maxConnPerServer ≤ 100 := by
  unfold Init
  simp only
  split <;> omega

theorem statesAfter_active_le_cap (pool : ClientConnectionPool) (calls : List Call) (q : String)
    (lo : Int) (hlo : lo ≤ activeAt pool q) (h : activeAt pool q ≤ pool.maxConnPerServer)
    (hcap : pool.maxConnPerServer ≤ maxInt) (hlen : minInt + (calls.length : Int) ≤ lo) :
    ∀ s ∈ statesAfter pool calls,
      activeAt s q ≤ s.maxConnPerServer ∧ s.maxConnPerServer = pool.maxConnPerServer := by
  induction calls generalizing pool lo with
  | nil => simp [statesAfter]
  | cons c cs ih =>
    intro s hs
    simp only [List.length_cons] at hlen
    push_cast at hlen
    obtain ⟨h1, h2⟩ := step_active_bounds pool c q h hcap (by omega)
    simp only [statesAfter, List.mem_cons] at hs
    rcases hs with rfl | hs
    · exact ⟨by rw [step_cap]; exact h1, step_cap pool c⟩
    · obtain ⟨h3, h4⟩ := ih (step pool c) (lo - 1) (by omega) (by rw [step_cap]; exact h1)
        (by rw [step_cap]; exact hcap) (by omega) s hs
      exact ⟨h3, by rw [h4, step_cap]⟩

theorem run_discards (pool : ClientConnectionPool) (server : ExpireMember) (b : BridgePtr)
    (k : Nat) (hk : minInt ≤ activeCount pool server - (k : Int)) :
    activeCount (run pool (List.replicate k (Call.ReturnBrokenConnBridge server b))) server
      = activeCount pool server - (k : Int) ∧
    (run pool (List.replicate k (Call.ReturnBrokenConnBridge server b))).maxConnPerServer
      = pool.maxConnPerServer := by
  induction k generalizing pool with
  | zero => simp [run]
  | succ k ih =>
    push_cast at hk
    have hstep : activeCount (step pool (Call.ReturnBrokenConnBridge server b)) server
        = activeCount pool server - 1 := by
      show activeAt (ReturnBrokenConnBridge pool server b).pool (GetStorageServerUID server) = _
      rw [ReturnBrokenConnBridge_activeAt]
      simp only [if_true]
      apply addInt_neg_one
      unfold activeCount at hk
      omega
    have hrun : run pool (List.replicate (k + 1) (Call.ReturnBrokenConnBridge server b))
        = run (step pool (Call.ReturnBrokenConnBridge server b))
            (List.replicate k (Call.ReturnBrokenConnBridge server b)) := by
      simp [run, List.replicate_succ]
    obtain ⟨h1, h2⟩ := ih (step pool (Call.ReturnBrokenConnBridge server b))
      (by rw [hstep]; omega)
    rw [hrun, h1, h2, hstep]
    push_cast
    exact ⟨by omega, rfl⟩

theorem run_cons_append_singleton (pool : ClientConnectionPool) (c : Call) (l : List Call)
    (d : Call) : run pool (c :: (l ++ [d])) = step (run (step pool c) l) d := by
  simp [run, List.foldl_append]

theorem step_discard_activeCount (pool : ClientConnectionPool) (server : ExpireMember)
    (b : BridgePtr) :
    activeCount (step pool (Call.ReturnBrokenConnBridge server b)) server
      = addInt (activeCount pool server) (-1) := by
  show activeAt (ReturnBrokenConnBridge pool server b).pool (GetStorageServerUID server) = _
  rw [ReturnBrokenConnBridge_activeAt]
  simp [activeCount]

theorem run_mem_statesAfter (pool : ClientConnectionPool) (c : Call) (cs : List Call) :
    run pool (c :: cs) ∈ statesAfter pool (c :: cs) := by
  induction cs generalizing pool c with
  | nil => simp [run, statesAfter]
  | cons d ds ih =>
    have h := ih (step pool c) d
    simp only [statesAfter, List.mem_cons]
    right
    simpa [run, statesAfter] using h

/-- C1, as the code has it. After `Init(n)`, for any `n`, and any sequence of
at most `2^63` calls of `GetConnBridge`, `ReturnConnBridge` and
`ReturnBrokenConnBridge`, whatever the dials and handshakes answer, the active
counter of a peer is at most `maxConnPerServer` after every call of the
sequence, and the cap is the one `Init` has set. The calls may all be on that
peer, as in the sequences of the specification, or on other peers as well. -/
theorem active_counter_never_exceeds_cap (pool0 : ClientConnectionPool) (n : Int)
    (server : ExpireMember) (calls : List Call) (hlen : calls.length ≤ 9223372036854775808) :
    ∀ s ∈ statesAfter (Init pool0 n) calls,
      activeCount s server ≤ s.maxConnPerServer ∧
      s.maxConnPerServer = (Init pool0 n).maxConnPerServer := by
  have hz : activeAt (Init pool0 n) (GetStorageServerUID server) = 0 := rfl
  have hr := Init_cap_range pool0 n
  have hl : ((calls.length : Nat) : Int) ≤ 9223372036854775808 := by exact_mod_cast hlen
  exact statesAfter_active_le_cap (Init pool0 n) calls (GetStorageServerUID server) 0
    (by omega) (by omega) (by unfold maxInt; omega) (by unfold minInt; omega)

theorem active_counter_never_exceeds_cap_witness :
    sampleCalls.length ≤ 9223372036854775808 ∧
    (∀ c ∈ sampleCalls, c.server = peerA) ∧
    ∀ s ∈ statesAfter (Init zeroPool 2) sampleCalls,
      activeCount s peerA ≤ s.maxConnPerServer ∧
      s.maxConnPerServer = (Init zeroPool 2).maxConnPerServer :=
  ⟨by decide, by decide,
   active_counter_never_exceeds_cap zeroPool 2 peerA sampleCalls (by decide)⟩

/-- C1 as stated fails on a sequence of `2^63 + 2` calls on one peer: after
`Init(2)`, a `ReturnConnBridge(peerA, 1)` and `2^63` discards take the counter
of `peerA` down to the smallest value of `int`, and one more discard wraps it
around to the largest, above the cap of `2`. -/
theorem active_counter_wraps_counterexample :
    (∀ c ∈ longDiscards, c.server = peerA) ∧
    run (Init zeroPool 2) longDiscards ∈ statesAfter (Init zeroPool 2) longDiscards ∧
    (run (Init zeroPool 2) longDiscards).maxConnPerServer = 2 ∧
    activeCount (run (Init zeroPool 2) longDiscards) peerA = 9223372036854775807 ∧
    ¬ (activeCount (run (Init zeroPool 2) longDiscards) peerA
        ≤ (run (Init zeroPool 2) longDiscards).maxConnPerServer) := by
  have hfirst : activeCount (step (Init zeroPool 2) (Call.ReturnConnBridge peerA (some 1))) peerA
      = 0 := by decide
  have hcap1 : (step (Init zeroPool 2) (Call.ReturnConnBridge peerA (some 1))).maxConnPerServer
      = 2 := by decide
  have hk : minInt ≤ activeCount (step (Init zeroPool 2) (Call.ReturnConnBridge peerA (some 1)))
      peerA - ((9223372036854775808 : Nat) : Int) := by
    rw [hfirst]
    unfold minInt
    norm_num
  obtain ⟨hdown, hcap2⟩ := run_discards
    (step (Init zeroPool 2) (Call.ReturnConnBridge peerA (some 1))) peerA (some 1)
    9223372036854775808 hk
  have hrep : List.replicate 9223372036854775809 (Call.ReturnBrokenConnBridge peerA (some 1))
      = List.replicate 9223372036854775808 (Call.ReturnBrokenConnBridge peerA (some 1))
        ++ [Call.ReturnBrokenConnBridge peerA (some 1)] :=
    List.replicate_succ' 9223372036854775808 _
  have hsplit : run (Init zeroPool 2) longDiscards
      = step (run (step (Init zeroPool 2) (Call.ReturnConnBridge peerA (some 1)))
          (List.replicate 9223372036854775808 (Call.ReturnBrokenConnBridge peerA (some 1))))
          (Call.ReturnBrokenConnBridge peerA (some 1)) := by
    have h := run_cons_append_singleton (Init zeroPool 2) (Call.ReturnConnBridge peerA (some 1))
      (List.replicate 9223372036854775808 (Call.ReturnBrokenConnBridge peerA (some 1)))
      (Call.ReturnBrokenConnBridge peerA (some 1))
    rw [← hrep] at h
    exact h
  have hd : activeCount (run (step (Init zeroPool 2) (Call.ReturnConnBridge peerA (some 1)))
      (List.replicate 9223372036854775808 (Call.ReturnBrokenConnBridge peerA (some 1)))) peerA
      = -9223372036854775808 := by
    rw [hdown, hfirst]
    norm_num
  have hval : activeCount (run (Init zeroPool 2) longDiscards) peerA = 9223372036854775807 := by
    rw [hsplit, step_discard_activeCount, hd]
    decide
  have hcapv : (run (Init zeroPool 2) longDiscards).maxConnPerServer = 2 := by
    rw [hsplit, step_cap, hcap2, hcap1]
  refine ⟨?_, ?_, hcapv, hval, ?_⟩
  · intro c hc
    unfold longDiscards at hc
    rcases List.mem_cons.mp hc with h1 | h1
    · rw [h1]; rfl
    · rw [(List.mem_replicate.mp h1).2]; rfl
  · exact run_mem_statesAfter _ _ _
  · rw [hval, hcapv]
    decide

/-! ## Well-formed sequences: the counter counts idle and held connections -/

theorem heldCount_cons (held : Held) (server : ExpireMember) (c : BridgePtr) (q : String) :
    heldCount ((server, c) :: held) q
      = heldCount held q + (if q = GetStorageServerUID server then 1 else 0) := by
  unfold heldCount
  rw [List.countP_cons]
  by_cases h : q = GetStorageServerUID server
  · simp [h]
  · have : ¬ GetStorageServerUID server = q := fun e => h e.symm
    simp [h, this]

theorem heldCount_erase (held : Held) (server : ExpireMember) (c : BridgePtr) (q : String)
    (h : (server, c) ∈ held) :
    heldCount held q
      = heldCount (removeOne (server, c) held) q + (if q = GetStorageServerUID server then 1 else 0) := by
  induction held with
  | nil => simp at h
  | cons hd tl ih =>
    by_cases hx : hd = (server, c)
    · subst hx
      simp only [removeOne, if_true]
      exact heldCount_cons tl server c q
    · have ht : (server, c) ∈ tl := by
        rcases List.mem_cons.mp h with h1 | h1
        · exact absurd h1.symm hx
        · exact h1
      simp only [removeOne, hx, if_false]
      obtain ⟨s1, c1⟩ := hd
      rw [heldCount_cons, heldCount_cons, ih ht]
      omega

theorem step_Counted (pool : ClientConnectionPool) (held : Held) (c : Call)
    (hinv : Counted pool held) (hcap : pool.maxConnPerServer ≤ maxInt)
    (hok : allowed held c = true) :
    Counted (step pool c) (heldAfter pool held c) := by
  intro q
  have hq := hinv q
  have hmin : minInt < 0 := by decide
  cases c with
  | GetConnBridge server ext =>
    show activeAt (GetConnBridge ext pool server).pool q
      = ((idleAt (GetConnBridge ext pool server).pool q).length : Int)
        + (heldCount (heldAfter pool held (Call.GetConnBridge server ext)) q : Int)
    simp only [heldAfter]
    rcases GetConnBridge_cases ext pool server with
      ⟨front, rest, hl, hr, _, hi, ha⟩ | ⟨_, _, hr, hi, ha⟩ | ⟨_, hc, hr, _, hi, ha⟩
    · rw [hi, ha]
      simp only [hr, if_true, heldCount_cons]
      by_cases hk : q = GetStorageServerUID server
      · subst hk
        have : idleAt pool (GetStorageServerUID server) = front :: rest := hl
        rw [this] at hq
        simp only [if_true, List.length_cons] at hq ⊢
        push_cast at hq ⊢
        omega
      · simp only [hk, if_false]
        omega
    · rw [hi, ha]
      simp only [hr, if_false]
      exact hq
    · rw [hi, ha]
      simp only [hr, if_true, heldCount_cons]
      by_cases hk : q = GetStorageServerUID server
      · simp only [hk, if_true] at hq ⊢
        unfold activeCount at hc
        rw [addInt_one _ (by omega)]
        push_cast
        omega
      · simp only [hk, if_false]
        omega
  | ReturnConnBridge server b =>
    have hm : (server, b) ∈ held := by simpa [allowed] using hok
    show activeAt (ReturnConnBridge pool server b).pool q
      = ((idleAt (ReturnConnBridge pool server b).pool q).length : Int)
        + (heldCount (removeOne (server, b) held) q : Int)
    rw [ReturnConnBridge_activeAt, ReturnConnBridge_idleAt]
    have he := heldCount_erase held server b q hm
    by_cases hk : q = GetStorageServerUID server
    · simp only [hk, if_true, List.length_append, List.length_singleton] at he hq ⊢
      push_cast
      omega
    · simp only [hk, if_false] at he ⊢
      omega
  | ReturnBrokenConnBridge server b =>
    have hm : (server, b) ∈ held := by simpa [allowed] using hok
    show activeAt (ReturnBrokenConnBridge pool server b).pool q
      = ((idleAt (ReturnBrokenConnBridge pool server b).pool q).length : Int)
        + (heldCount (removeOne (server, b) held) q : Int)
    rw [ReturnBrokenConnBridge_activeAt, ReturnBrokenConnBridge_idleAt]
    have he := heldCount_erase held server b q hm
    by_cases hk : q = GetStorageServerUID server
    · simp only [hk, if_true] at he hq ⊢
      rw [addInt_neg_one _ (by omega)]
      omega
    · simp only [hk, if_false] at he ⊢
      omega

theorem Counted_nonneg (pool : ClientConnectionPool) (held : Held) (h : Counted pool held)
    (q : String) : 0 ≤ activeAt pool q := by
  rw [h q]
  omega

/-- On a well-formed sequence the counters stay the number of idle and held
connections, and at most the cap. -/
theorem run_Counted (pool : ClientConnectionPool) (held : Held) (calls : List Call)
    (hinv : Counted pool held) (hle : ∀ q, activeAt pool q ≤ pool.maxConnPerServer)
    (hcap : pool.maxConnPerServer ≤ maxInt) (hwf : wellFormedFrom pool held calls = true) :
    Counted (run pool calls) (heldRun pool held calls) ∧
    (∀ q, activeAt (run pool calls) q ≤ (run pool calls).maxConnPerServer) := by
  induction calls generalizing pool held with
  | nil => exact ⟨hinv, hle⟩
  | cons c cs ih =>
    simp only [wellFormedFrom, Bool.and_eq_true] at hwf
    have hmin : minInt < 0 := by decide
    have hle1 : ∀ q, activeAt (step pool c) q ≤ (step pool c).maxConnPerServer := by
      intro q
      rw [step_cap]
      have h0 := Counted_nonneg pool held hinv q
      exact (step_active_bounds pool c q (hle q) hcap (by omega)).1
    exact ih (step pool c) (heldAfter pool held c) (step_Counted pool held c hinv hcap hwf.1)
      hle1 (by rw [step_cap]; exact hcap) hwf.2

/-- C2. In the state reached from `Init(n)` by a well-formed sequence of calls
(each `ReturnConnBridge` and `ReturnBrokenConnBridge` passes a connection that
a caller holds, got from `GetConnBridge` for the same peer and not handed back
or discarded since), for every peer the length of its idle list is at most its
active counter, which is at most `maxConnPerServer`; more precisely the counter
is the number of idle connections plus the number of held ones. -/
theorem idle_le_active_le_cap (pool0 : ClientConnectionPool) (n : Int) (calls : List Call)
    (hwf : wellFormed (Init pool0 n) calls = true) (server : ExpireMember) :
    ((idleList (run (Init pool0 n) calls) server).length : Int)
      ≤ activeCount (run (Init pool0 n) calls) server ∧
    activeCount (run (Init pool0 n) calls) server
      ≤ (run (Init pool0 n) calls).maxConnPerServer ∧
    activeCount (run (Init pool0 n) calls) server
      = ((idleList (run (Init pool0 n) calls) server).length : Int)
        + (heldCount (heldRun (Init pool0 n) [] calls) (GetStorageServerUID server) : Int) := by
  have h0 : Counted (Init pool0 n) [] := by
    intro q
    show (0 : Int) = ((([] : List BridgePtr).length : Nat) : Int) + ((0 : Nat) : Int)
    simp
  have hr := Init_cap_range pool0 n
  have hz : ∀ q, activeAt (Init pool0 n) q ≤ (Init pool0 n).maxConnPerServer := by
    intro q
    have hq : activeAt (Init pool0 n) q = 0 := rfl
    omega
  obtain ⟨hcnt, hle⟩ := run_Counted (Init pool0 n) [] calls h0 hz
    (by unfold maxInt; omega) hwf
  have hc := hcnt (GetStorageServerUID server)
  refine ⟨?_, hle (GetStorageServerUID server), hc⟩
  unfold idleList activeCount
  omega

theorem idle_le_active_le_cap_witness :
    wellFormed (Init zeroPool 3) wellFormedCalls = true ∧
    ((idleList (run (Init zeroPool 3) wellFormedCalls) peerA).length : Int)
      ≤ activeCount (run (Init zeroPool 3) wellFormedCalls) peerA ∧
    activeCount (run (Init zeroPool 3) wellFormedCalls) peerA
      ≤ (run (Init zeroPool 3) wellFormedCalls).maxConnPerServer ∧
    activeCount (run (Init zeroPool 3) wellFormedCalls) peerA
      = ((idleList (run (Init zeroPool 3) wellFormedCalls) peerA).length : Int)
        + (heldCount (heldRun (Init zeroPool 3) [] wellFormedCalls)
            (GetStorageServerUID peerA) : Int) :=
  ⟨by decide, idle_le_active_le_cap zeroPool 3 wellFormedCalls (by decide) peerA⟩

/-! ## Handing back and getting again -/

/-- C9, as the code has it. `ReturnConnBridge(p, c)` followed at once by
`GetConnBridge(p)` returns, with a nil error, the front of the old idle list
with `c` put at its back: `c` itself when the idle list of `p` was empty before
the return, and the oldest idle connection of `p` otherwise. -/
theorem ReturnConnBridge_then_GetConnBridge (ext : External) (pool : ClientConnectionPool)
    (server : ExpireMember) (c : BridgePtr) :
    (idleList pool server = [] →
      (GetConnBridge ext (ReturnConnBridge pool server c).pool server).ret = (c, none) ∧
      idleList (GetConnBridge ext (ReturnConnBridge pool server c).pool server).pool server = []) ∧
    (∀ front rest, idleList pool server = front :: rest →
      (GetConnBridge ext (ReturnConnBridge pool server c).pool server).ret = (front, none) ∧
      idleList (GetConnBridge ext (ReturnConnBridge pool server c).pool server).pool server
        = rest ++ [c]) := by
  have hret : idleList (ReturnConnBridge pool server c).pool server
      = idleList pool server ++ [c] := by
    simp [idleList, ReturnConnBridge_idleAt]
  constructor
  · intro h
    rw [h] at hret
    rw [GetConnBridge_hit ext (ReturnConnBridge pool server c).pool server c [] hret]
    refine ⟨rfl, ?_⟩
    simp [idleList, idleAt_mapSet]
  · intro front rest h
    rw [h] at hret
    rw [GetConnBridge_hit ext (ReturnConnBridge pool server c).pool server front (rest ++ [c]) hret]
    refine ⟨rfl, ?_⟩
    simp [idleList, idleAt_mapSet]

/-- C9 as stated fails: with connection `1` idle for `peerA` and connection `2`
held, handing back `2` and getting at once returns `1`, not `2`. -/
theorem ReturnConnBridge_then_GetConnBridge_counterexample :
    wellFormed (Init zeroPool 2)
      [Call.GetConnBridge peerA (extOk 1), Call.GetConnBridge peerA (extOk 2),
       Call.ReturnConnBridge peerA (some 1), Call.ReturnConnBridge peerA (some 2)] = true ∧
    (GetConnBridge (extOk 3) (ReturnConnBridge poolOneIdle peerA (some 2)).pool peerA).ret
      = (some 1, none) ∧
    (GetConnBridge (extOk 3) (ReturnConnBridge poolOneIdle peerA (some 2)).pool peerA).ret.1
      ≠ some 2 := by
  decide

/-! ## No connection in two hands -/

theorem mem_of_mem_removeOne {α : Type} [DecidableEq α] (x a : α) (l : List α)
    (h : a ∈ removeOne x l) : a ∈ l := by
  induction l with
  | nil => simp [removeOne] at h
  | cons y ys ih =>
    by_cases hy : y = x
    · simp only [removeOne, hy, if_true] at h
      exact List.mem_cons_of_mem _ h
    · simp only [removeOne, hy, if_false] at h
      rcases List.mem_cons.mp h with h1 | h1
      · exact h1 ▸ List.mem_cons_self _ _
      · exact List.mem_cons_of_mem _ (ih h1)

theorem nodup_removeOne {α : Type} [DecidableEq α] (x : α) (l : List α) (h : l.Nodup) :
    (removeOne x l).Nodup := by
  induction l with
  | nil => simp [removeOne]
  | cons y ys ih =>
    obtain ⟨h1, h2⟩ := List.nodup_cons.mp h
    by_cases hy : y = x
    · simp only [removeOne, hy, if_true]
      exact h2
    · simp only [removeOne, hy, if_false]
      exact List.nodup_cons.mpr ⟨fun hm => h1 (mem_of_mem_removeOne x y ys hm), ih h2⟩

theorem not_mem_removeOne {α : Type} [DecidableEq α] (x : α) (l : List α) (h : l.Nodup) :
    x ∉ removeOne x l := by
  induction l with
  | nil => simp [removeOne]
  | cons y ys ih =>
    obtain ⟨h1, h2⟩ := List.nodup_cons.mp h
    by_cases hy : y = x
    · simp only [removeOne, hy, if_true]
      exact hy ▸ h1
    · simp only [removeOne, hy, if_false]
      intro hm
      rcases List.mem_cons.mp hm with h3 | h3
      · exact hy h3.symm
      · exact ih h2 h3

theorem created_grows (pool : ClientConnectionPool) (book : Ledger) (call : Call)
    (c : BridgePtr) (h : c ∈ book.created) : c ∈ (ledgerAfter pool book call).created := by
  cases call with
  | GetConnBridge server ext =>
    simp only [ledgerAfter]
    split
    · exact List.mem_cons_of_mem _ h
    · exact h
  | ReturnConnBridge server b => exact h
  | ReturnBrokenConnBridge server b => exact h

theorem step_Exclusive_get (pool : ClientConnectionPool) (book : Ledger) (server : ExpireMember)
    (ext : External) (hinv : Exclusive pool book)
    (hok : permitted pool book (Call.GetConnBridge server ext) = true) :
    Exclusive (step pool (Call.GetConnBridge server ext))
      (ledgerAfter pool book (Call.GetConnBridge server ext)) := by
  have hgrow := created_grows pool book (Call.GetConnBridge server ext)
  have hfresh : Event.newBridge ext.bridge ∈ (GetConnBridge ext pool server).events →
      some ext.bridge ∉ book.created := by
    unfold permitted at hok
    exact of_decide_eq_true hok
  have hheld : (ledgerAfter pool book (Call.GetConnBridge server ext)).held
      = if (GetConnBridge ext pool server).ret.2 = none then
          (GetConnBridge ext pool server).ret.1 :: book.held
        else book.held := rfl
  have hdisc : (ledgerAfter pool book (Call.GetConnBridge server ext)).discarded
      = book.discarded := rfl
  have hstep : step pool (Call.GetConnBridge server ext) = (GetConnBridge ext pool server).pool :=
    rfl
  rw [hstep]
  rcases GetConnBridge_cases ext pool server with
    ⟨front, rest, hl, hr, _, hi, _⟩ | ⟨_, _, hr, hi, _⟩ | ⟨_, _, hr, hev, hi, _⟩
  · -- an idle connection changes hands
    have hl1 : idleAt pool (GetStorageServerUID server) = front :: rest := hl
    have hnd := hinv.idle_nodup (GetStorageServerUID server)
    rw [hl1] at hnd
    obtain ⟨hfr, hrest⟩ := List.nodup_cons.mp hnd
    have hfront : front ∈ idleAt pool (GetStorageServerUID server) := by
      rw [hl1]; exact List.mem_cons_self _ _
    have hsub : ∀ q c, c ∈ idleAt (GetConnBridge ext pool server).pool q → c ∈ idleAt pool q := by
      intro q c hc
      rw [hi] at hc
      by_cases hq : q = GetStorageServerUID server
      · simp only [hq, if_true] at hc
        rw [hq, hl1]
        exact List.mem_cons_of_mem _ hc
      · simpa only [hq, if_false] using hc
    have hne : ∀ q c, c ∈ idleAt (GetConnBridge ext pool server).pool q → c ≠ front := by
      intro q c hc hcf
      subst hcf
      by_cases hq : q = GetStorageServerUID server
      · rw [hi] at hc
        simp only [hq, if_true] at hc
        exact hfr hc
      · exact hq (hinv.idle_one_key q _ c (hsub q c hc) hfront)
    have hheld1 : (ledgerAfter pool book (Call.GetConnBridge server ext)).held
        = front :: book.held := by
      rw [hheld, hr]
      simp
    refine ⟨?_, ?_, ?_, ?_, ?_, ?_, ?_, ?_, ?_⟩
    · rw [hheld1]
      exact List.nodup_cons.mpr ⟨hinv.idle_not_held _ _ hfront, hinv.held_nodup⟩
    · intro q
      rw [hi]
      by_cases hq : q = GetStorageServerUID server
      · simp only [hq, if_true]
        exact hrest
      · simp only [hq, if_false]
        exact hinv.idle_nodup q
    · intro q c hc
      rw [hheld1]
      intro hm
      rcases List.mem_cons.mp hm with h1 | h1
      · exact hne q c hc h1
      · exact hinv.idle_not_held q c (hsub q c hc) h1
    · intro q r c hq hr1
      exact hinv.idle_one_key q r c (hsub q c hq) (hsub r c hr1)
    · intro c hc
      rw [hheld1] at hc
      apply hgrow
      rcases List.mem_cons.mp hc with h1 | h1
      · rw [h1]
        exact hinv.idle_created _ _ hfront
      · exact hinv.held_created c h1
    · intro q c hc
      exact hgrow c (hinv.idle_created q c (hsub q c hc))
    · intro c hc
      exact hgrow c (hinv.discarded_created c hc)
    · intro c hc
      rw [hheld1]
      intro hm
      rcases List.mem_cons.mp hm with h1 | h1
      · rw [h1] at hc
        exact hinv.discarded_not_idle _ _ hc hfront
      · exact hinv.discarded_not_held c hc h1
    · intro q c hc hm
      exact hinv.discarded_not_idle q c hc (hsub q c hm)
  · -- refused, or the creation failed: nobody gets a connection
    have hheld1 : (ledgerAfter pool book (Call.GetConnBridge server ext)).held = book.held := by
      rw [hheld]
      simp [hr]
    refine ⟨?_, ?_, ?_, ?_, ?_, ?_, ?_, ?_, ?_⟩
    · rw [hheld1]; exact hinv.held_nodup
    · intro q; rw [hi]; exact hinv.idle_nodup q
    · intro q c hc
      rw [hi] at hc
      rw [hheld1]
      exact hinv.idle_not_held q c hc
    · intro q r c hq hr1
      rw [hi] at hq hr1
      exact hinv.idle_one_key q r c hq hr1
    · intro c hc
      rw [hheld1] at hc
      exact hgrow c (hinv.held_created c hc)
    · intro q c hc
      rw [hi] at hc
      exact hgrow c (hinv.idle_created q c hc)
    · intro c hc
      exact hgrow c (hinv.discarded_created c hc)
    · intro c hc
      rw [hheld1]
      exact hinv.discarded_not_held c hc
    · intro q c hc
      rw [hi]
      exact hinv.discarded_not_idle q c hc
  · -- a new connection goes to the caller
    have hnew := hfresh hev
    have hheld1 : (ledgerAfter pool book (Call.GetConnBridge server ext)).held
        = some ext.bridge :: book.held := by
      rw [hheld, hr]
      simp
    have hcr : some ext.bridge ∈ (ledgerAfter pool book (Call.GetConnBridge server ext)).created := by
      simp only [ledgerAfter, hev, if_true]
      exact List.mem_cons_self _ _
    refine ⟨?_, ?_, ?_, ?_, ?_, ?_, ?_, ?_, ?_⟩
    · rw [hheld1]
      exact List.nodup_cons.mpr ⟨fun hm => hnew (hinv.held_created _ hm), hinv.held_nodup⟩
    · intro q; rw [hi]; exact hinv.idle_nodup q
    · intro q c hc
      rw [hi] at hc
      rw [hheld1]
      intro hm
      rcases List.mem_cons.mp hm with h1 | h1
      · rw [h1] at hc
        exact hnew (hinv.idle_created q _ hc)
      · exact hinv.idle_not_held q c hc h1
    · intro q r c hq hr1
      rw [hi] at hq hr1
      exact hinv.idle_one_key q r c hq hr1
    · intro c hc
      rw [hheld1] at hc
      rcases List.mem_cons.mp hc with h1 | h1
      · rw [h1]; exact hcr
      · exact hgrow c (hinv.held_created c h1)
    · intro q c hc
      rw [hi] at hc
      exact hgrow c (hinv.idle_created q c hc)
    · intro c hc
      exact hgrow c (hinv.discarded_created c hc)
    · intro c hc
      rw [hheld1]
      intro hm
      rcases List.mem_cons.mp hm with h1 | h1
      · rw [h1] at hc
        exact hnew (hinv.discarded_created _ hc)
      · exact hinv.discarded_not_held c hc h1
    · intro q c hc
      rw [hi]
      exact hinv.discarded_not_idle q c hc

theorem step_Exclusive_return (pool : ClientConnectionPool) (book : Ledger)
    (server : ExpireMember) (b : BridgePtr) (hinv : Exclusive pool book)
    (hok : permitted pool book (Call.ReturnConnBridge server b) = true) :
    Exclusive (step pool (Call.ReturnConnBridge server b))
      (ledgerAfter pool book (Call.ReturnConnBridge server b)) := by
  have hm : b ∈ book.held := by
    unfold permitted at hok
    exact of_decide_eq_true hok
  have hstep : step pool (Call.ReturnConnBridge server b) = (ReturnConnBridge pool server b).pool :=
    rfl
  have hheld : (ledgerAfter pool book (Call.ReturnConnBridge server b)).held
      = removeOne b book.held := rfl
  have hbidle : ∀ q, b ∉ idleAt pool q := fun q hq => hinv.idle_not_held q b hq hm
  have hmem : ∀ q c, c ∈ idleAt (ReturnConnBridge pool server b).pool q →
      c ∈ idleAt pool q ∨ (c = b ∧ q = GetStorageServerUID server) := by
    intro q c hc
    rw [ReturnConnBridge_idleAt] at hc
    by_cases hq : q = GetStorageServerUID server
    · simp only [hq, if_true, List.mem_append, List.mem_singleton] at hc
      rcases hc with h1 | h1
      · left; rw [hq]; exact h1
      · right; exact ⟨h1, hq⟩
    · left; simpa only [hq, if_false] using hc
  rw [hstep]
  refine ⟨?_, ?_, ?_, ?_, ?_, ?_, ?_, ?_, ?_⟩
  · rw [hheld]; exact nodup_removeOne b _ hinv.held_nodup
  · intro q
    rw [ReturnConnBridge_idleAt]
    by_cases hq : q = GetStorageServerUID server
    · simp only [hq, if_true]
      refine List.Nodup.append (hinv.idle_nodup _) (List.nodup_singleton b) ?_
      intro x hx hx1
      rw [List.mem_singleton] at hx1
      exact hbidle _ (hx1 ▸ hx)
    · simp only [hq, if_false]
      exact hinv.idle_nodup q
  · intro q c hc
    rw [hheld]
    intro hr
    rcases hmem q c hc with h1 | ⟨h1, _⟩
    · exact hinv.idle_not_held q c h1 (mem_of_mem_removeOne b c _ hr)
    · rw [h1] at hr
      exact not_mem_removeOne b _ hinv.held_nodup hr
  · intro q r c hq hr
    rcases hmem q c hq with h1 | ⟨h1, h2⟩
    · rcases hmem r c hr with h3 | ⟨h3, _⟩
      · exact hinv.idle_one_key q r c h1 h3
      · rw [h3] at h1
        exact absurd h1 (hbidle q)
    · rcases hmem r c hr with h3 | ⟨_, h4⟩
      · rw [h1] at h3
        exact absurd h3 (hbidle r)
      · rw [h2, h4]
  · intro c hc
    rw [hheld] at hc
    exact hinv.held_created c (mem_of_mem_removeOne b c _ hc)
  · intro q c hc
    rcases hmem q c hc with h1 | ⟨h1, _⟩
    · exact hinv.idle_created q c h1
    · rw [h1]; exact hinv.held_created b hm
  · intro c hc
    exact hinv.discarded_created c hc
  · intro c hc
    rw [hheld]
    intro hr
    exact hinv.discarded_not_held c hc (mem_of_mem_removeOne b c _ hr)
  · intro q c hc hi
    rcases hmem q c hi with h1 | ⟨h1, _⟩
    · exact hinv.discarded_not_idle q c hc h1
    · rw [h1] at hc
      exact hinv.discarded_not_held b hc hm

theorem step_Exclusive_broken (pool : ClientConnectionPool) (book : Ledger)
    (server : ExpireMember) (b : BridgePtr) (hinv : Exclusive pool book)
    (hok : permitted pool book (Call.ReturnBrokenConnBridge server b) = true) :
    Exclusive (step pool (Call.ReturnBrokenConnBridge server b))
      (ledgerAfter pool book (Call.ReturnBrokenConnBridge server b)) := by
  have hm : b ∈ book.held := by
    unfold permitted at hok
    exact of_decide_eq_true hok
  have hheld : (ledgerAfter pool book (Call.ReturnBrokenConnBridge server b)).held
      = removeOne b book.held := rfl
  have hdisc : (ledgerAfter pool book (Call.ReturnBrokenConnBridge server b)).discarded
      = b :: book.discarded := rfl
  have hidle : ∀ q, idleAt (step pool (Call.ReturnBrokenConnBridge server b)) q = idleAt pool q :=
    fun q => rfl
  refine ⟨?_, ?_, ?_, ?_, ?_, ?_, ?_, ?_, ?_⟩
  · rw [hheld]; exact nodup_removeOne b _ hinv.held_nodup
  · intro q; rw [hidle]; exact hinv.idle_nodup q
  · intro q c hc
    rw [hidle] at hc
    rw [hheld]
    intro hr
    exact hinv.idle_not_held q c hc (mem_of_mem_removeOne b c _ hr)
  · intro q r c hq hr
    rw [hidle] at hq hr
    exact hinv.idle_one_key q r c hq hr
  · intro c hc
    rw [hheld] at hc
    exact hinv.held_created c (mem_of_mem_removeOne b c _ hc)
  · intro q c hc
    rw [hidle] at hc
    exact hinv.idle_created q c hc
  · intro c hc
    rw [hdisc] at hc
    rcases List.mem_cons.mp hc with h1 | h1
    · rw [h1]; exact hinv.held_created b hm
    · exact hinv.discarded_created c h1
  · intro c hc
    rw [hdisc] at hc
    rw [hheld]
    intro hr
    rcases List.mem_cons.mp hc with h1 | h1
    · rw [h1] at hr
      exact not_mem_removeOne b _ hinv.held_nodup hr
    · exact hinv.discarded_not_held c h1 (mem_of_mem_removeOne b c _ hr)
  · intro q c hc
    rw [hdisc] at hc
    rw [hidle]
    rcases List.mem_cons.mp hc with h1 | h1
    · rw [h1]
      exact fun hi => hinv.idle_not_held q b hi hm
    · exact hinv.discarded_not_idle q c h1

theorem step_Exclusive (pool : ClientConnectionPool) (book : Ledger) (call : Call)
    (hinv : Exclusive pool book) (hok : permitted pool book call = true) :
    Exclusive (step pool call) (ledgerAfter pool book call) := by
  cases call with
  | GetConnBridge server ext => exact step_Exclusive_get pool book server ext hinv hok
  | ReturnConnBridge server b => exact step_Exclusive_return pool book server b hinv hok
  | ReturnBrokenConnBridge server b => exact step_Exclusive_broken pool book server b hinv hok

theorem run_Exclusive (pool : ClientConnectionPool) (book : Ledger) (calls : List Call)
    (hinv : Exclusive pool book) (hwf : permittedFrom pool book calls = true) :
    Exclusive (run pool calls) (ledgerRun pool book calls) := by
  induction calls generalizing pool book with
  | nil => exact hinv
  | cons c cs ih =>
    simp only [permittedFrom, Bool.and_eq_true] at hwf
    exact ih (step pool c) (ledgerAfter pool book c) (step_Exclusive pool book c hinv hwf.1) hwf.2

theorem Init_Exclusive (pool0 : ClientConnectionPool) (n : Int) :
    Exclusive (Init pool0 n) emptyLedger := by
  have hidle : ∀ q, idleAt (Init pool0 n) q = [] := fun q => rfl
  refine ⟨List.nodup_nil, ?_, ?_, ?_, ?_, ?_, ?_, ?_, ?_⟩
  · intro q; rw [hidle]; exact List.nodup_nil
  · intro q c hc; rw [hidle] at hc; simp at hc
  · intro q r c hc; rw [hidle] at hc; simp at hc
  · intro c hc; simp [emptyLedger] at hc
  · intro q c hc; rw [hidle] at hc; simp at hc
  · intro c hc; simp [emptyLedger] at hc
  · intro c hc; simp [emptyLedger] at hc
  · intro q c hc; simp [emptyLedger] at hc

/-- What a `GetConnBridge` returns with a nil error is neither held nor
discarded, when the pool and the book are exclusive and the call is permitted. -/
theorem GetConnBridge_gives_free (pool : ClientConnectionPool) (book : Ledger)
    (server : ExpireMember) (ext : External) (hinv : Exclusive pool book)
    (hok : permitted pool book (Call.GetConnBridge server ext) = true)
    (hnil : (GetConnBridge ext pool server).ret.2 = none) :
    (GetConnBridge ext pool server).ret.1 ∉ book.held ∧
    (GetConnBridge ext pool server).ret.1 ∉ book.discarded := by
  have hfresh : Event.newBridge ext.bridge ∈ (GetConnBridge ext pool server).events →
      some ext.bridge ∉ book.created := by
    unfold permitted at hok
    exact of_decide_eq_true hok
  rcases GetConnBridge_cases ext pool server with
    ⟨front, rest, hl, hr, _, _, _⟩ | ⟨_, _, hr, _, _⟩ | ⟨_, _, hr, hev, _, _⟩
  · have hfront : front ∈ idleAt pool (GetStorageServerUID server) := by
      have hl1 : idleAt pool (GetStorageServerUID server) = front :: rest := hl
      rw [hl1]; exact List.mem_cons_self _ _
    rw [hr]
    exact ⟨hinv.idle_not_held _ _ hfront, fun hd => hinv.discarded_not_idle _ _ hd hfront⟩
  · exact absurd hnil hr
  · rw [hr]
    exact ⟨fun hm => hfresh hev (hinv.held_created _ hm),
      fun hd => hfresh hev (hinv.discarded_created _ hd)⟩

/-- C10. After `Init(n)` and a sequence of calls in which every Bridge made is
a new one and callers hand back or discard only what they hold, once each:
no idle list has a connection twice, no connection is in two idle lists, no
held connection is held twice, and no idle connection is held; so a further
`GetConnBridge` that returns with a nil error returns a connection that no
caller holds and that was not discarded before. -/
theorem no_double_checkout (pool0 : ClientConnectionPool) (n : Int) (calls : List Call)
    (hwf : permittedFrom (Init pool0 n) emptyLedger calls = true) :
    (∀ q, (idleAt (run (Init pool0 n) calls) q).Nodup) ∧
    (∀ q r c, c ∈ idleAt (run (Init pool0 n) calls) q →
      c ∈ idleAt (run (Init pool0 n) calls) r → q = r) ∧
    (ledgerRun (Init pool0 n) emptyLedger calls).held.Nodup ∧
    (∀ q c, c ∈ idleAt (run (Init pool0 n) calls) q →
      c ∉ (ledgerRun (Init pool0 n) emptyLedger calls).held) ∧
    (∀ server ext,
      permitted (run (Init pool0 n) calls) (ledgerRun (Init pool0 n) emptyLedger calls)
        (Call.GetConnBridge server ext) = true →
      (GetConnBridge ext (run (Init pool0 n) calls) server).ret.2 = none →
      (GetConnBridge ext (run (Init pool0 n) calls) server).ret.1
        ∉ (ledgerRun (Init pool0 n) emptyLedger calls).held ∧
      (GetConnBridge ext (run (Init pool0 n) calls) server).ret.1
        ∉ (ledgerRun (Init pool0 n) emptyLedger calls).discarded) := by
  have hinv := run_Exclusive (Init pool0 n) emptyLedger calls (Init_Exclusive pool0 n) hwf
  exact ⟨hinv.idle_nodup, hinv.idle_one_key, hinv.held_nodup, hinv.idle_not_held,
    fun server ext hok hnil => GetConnBridge_gives_free _ _ server ext hinv hok hnil⟩

theorem no_double_checkout_witness :
    permittedFrom (Init zeroPool 3) emptyLedger wellFormedCalls = true ∧
    (∀ q, (idleAt (run (Init zeroPool 3) wellFormedCalls) q).Nodup) ∧
    (∀ q r c, c ∈ idleAt (run (Init zeroPool 3) wellFormedCalls) q →
      c ∈ idleAt (run (Init zeroPool 3) wellFormedCalls) r → q = r) ∧
    (ledgerRun (Init zeroPool 3) emptyLedger wellFormedCalls).held.Nodup ∧
    (∀ q c, c ∈ idleAt (run (Init zeroPool 3) wellFormedCalls) q →
      c ∉ (ledgerRun (Init zeroPool 3) emptyLedger wellFormedCalls).held) ∧
    (∀ server ext,
      permitted (run (Init zeroPool 3) wellFormedCalls)
        (ledgerRun (Init zeroPool 3) emptyLedger wellFormedCalls)
        (Call.GetConnBridge server ext) = true →
      (GetConnBridge ext (run (Init zeroPool 3) wellFormedCalls) server).ret.2 = none →
      (GetConnBridge ext (run (Init zeroPool 3) wellFormedCalls) server).ret.1
        ∉ (ledgerRun (Init zeroPool 3) emptyLedger wellFormedCalls).held ∧
      (GetConnBridge ext (run (Init zeroPool 3) wellFormedCalls) server).ret.1
        ∉ (ledgerRun (Init zeroPool 3) emptyLedger wellFormedCalls).discarded) :=
  ⟨by decide, no_double_checkout zeroPool 3 wellFormedCalls (by decide)⟩

/-! ## `Init` and `IncreaseActiveConnection` -/

/-- C12. After `Init(n)` the cap is `n` when `1 ≤ n ≤ 100` and `10` otherwise;
so `Init(0)` and `Init(1000)` both give `10`, and the cap is always between
`1` and `100`. -/
theorem Init_cap (pool : ClientConnectionPool) (n : Int) :
    (1 ≤ n ∧ n ≤ 100 → (Init pool n).maxConnPerServer = n) ∧
    (n ≤ 0 ∨ n > 100 → (Init pool n).maxConnPerServer = 10) ∧
    (Init pool 0).maxConnPerServer = 10 ∧
    (Init pool 1000).maxConnPerServer = 10 ∧
    1 ≤ (Init pool n).maxConnPerServer ∧ (Init pool n).maxConnPerServer ≤ 100 := by
  refine ⟨?_, ?_, rfl, rfl, ?_, ?_⟩
  · intro h
    unfold Init
    simp only
    split
    · omega
    · rfl
  · intro h
    unfold Init
    simp only [h, if_true]
  · exact (Init_cap_range pool n).1
  · exact (Init_cap_range pool n).2

theorem addInt_zero_left (b : Int) : addInt 0 b = b := by
  unfold addInt
  split
  · rename_i h
    rw [Int.zero_add]
    exact wrapInt_of_InRange b h.2
  · simp

/-- C15, as the code has it. `IncreaseActiveConnection(peer, delta)` returns
the sum, in the arithmetic of the Go type `int`, of the old counter of the peer
(`0` when the peer has no entry) and `delta`: the integer sum when that is a
value of `int`, and otherwise the value of `int` that differs from it by
`2^64`. It stores the returned value as the counter of the peer and adds
`delta` to `totalActiveConn` in the same arithmetic; with `delta = 0` it
returns the counter as it is and leaves both values as they were. -/
theorem IncreaseActiveConnection_applies_delta (pool : ClientConnectionPool)
    (server : ExpireMember) (delta : Int) :
    (IncreaseActiveConnection pool server delta).ret = addInt (activeCount pool server) delta ∧
    (mapGet pool.activeConnCounter (GetStorageServerUID server) = none →
      (IncreaseActiveConnection pool server delta).ret = delta) ∧
    mapGet (IncreaseActiveConnection pool server delta).pool.activeConnCounter
      (GetStorageServerUID server) = some (IncreaseActiveConnection pool server delta).ret ∧
    activeCount (IncreaseActiveConnection pool server delta).pool server
      = (IncreaseActiveConnection pool server delta).ret ∧
    (IncreaseActiveConnection pool server delta).pool.totalActiveConn
      = addInt pool.totalActiveConn delta ∧
    (InRange (activeCount pool server + delta) →
      (IncreaseActiveConnection pool server delta).ret = activeCount pool server + delta) ∧
    (InRange (pool.totalActiveConn + delta) →
      (IncreaseActiveConnection pool server delta).pool.totalActiveConn
        = pool.totalActiveConn + delta) ∧
    (IncreaseActiveConnection pool server delta).ret % 18446744073709551616
      = (activeCount pool server + delta) % 18446744073709551616 ∧
    (IncreaseActiveConnection pool server delta).pool.totalActiveConn % 18446744073709551616
      = (pool.totalActiveConn + delta) % 18446744073709551616 ∧
    (InRange (activeCount pool server) → InRange delta →
      InRange (IncreaseActiveConnection pool server delta).ret) ∧
    (IncreaseActiveConnection pool server 0).ret = activeCount pool server ∧
    activeCount (IncreaseActiveConnection pool server 0).pool server = activeCount pool server ∧
    (IncreaseActiveConnection pool server 0).pool.totalActiveConn = pool.totalActiveConn := by
  have hs : mapGet (IncreaseActiveConnection pool server delta).pool.activeConnCounter
      (GetStorageServerUID server) = some (IncreaseActiveConnection pool server delta).ret := by
    unfold IncreaseActiveConnection
    simp only [mapGet_mapSet_same]
  refine ⟨rfl, ?_, hs, ?_, rfl, ?_, ?_, ?_, ?_, ?_, ?_, ?_, ?_⟩
  · intro h
    rw [IncreaseActiveConnection_ret]
    simp [activeCount, activeAt, h, addInt_zero_left]
  · rw [IncreaseActiveConnection_ret]
    simp [activeCount, IncreaseActiveConnection_activeAt]
  · intro h
    rw [IncreaseActiveConnection_ret]
    exact addInt_of_InRange _ _ h
  · intro h
    rw [IncreaseActiveConnection_total]
    exact addInt_of_InRange _ _ h
  · rw [IncreaseActiveConnection_ret]
    exact addInt_emod _ _
  · rw [IncreaseActiveConnection_total]
    exact addInt_emod _ _
  · intro h1 h2
    rw [IncreaseActiveConnection_ret]
    exact InRange_addInt _ _ h1 h2
  · rw [IncreaseActiveConnection_ret]
    simp
  · simp [activeCount, IncreaseActiveConnection_activeAt]
  · rw [IncreaseActiveConnection_total]
    simp

/-- C15 as stated fails: after `Init(2)` and `IncreaseActiveConnection(peerA, maxInt)`
the counter of `peerA` is at the largest value of `int`, and
`IncreaseActiveConnection(peerA, 1)` returns and stores the smallest value, not
the old counter plus `1`. -/
theorem IncreaseActiveConnection_wraps_counterexample :
    activeCount poolCounterAtMax peerA = 9223372036854775807 ∧
    (IncreaseActiveConnection poolCounterAtMax peerA 1).ret = -9223372036854775808 ∧
    activeCount (IncreaseActiveConnection poolCounterAtMax peerA 1).pool peerA
      = -9223372036854775808 ∧
    (IncreaseActiveConnection poolCounterAtMax peerA 1).pool.totalActiveConn
      = -9223372036854775808 ∧
    (IncreaseActiveConnection poolCounterAtMax peerA 1).ret
      ≠ activeCount poolCounterAtMax peerA + 1 := by
  decide

/-- C18, as the code has it. After `Init(n)` both maps are empty, whatever the
pool was, and `totalActiveConn` is what it was before the call: `Init` does
not assign it. It is zero after `Init` when the pool value is new, its
`totalActiveConn` being the zero of a new struct. -/
theorem Init_empties_maps_keeps_total (pool : ClientConnectionPool) (n : Int) :
    (Init pool n).connMap = [] ∧
    (Init pool n).activeConnCounter = [] ∧
    (∀ server, idleList (Init pool n) server = [] ∧ activeCount (Init pool n) server = 0) ∧
    (Init pool n).totalActiveConn = pool.totalActiveConn ∧
    (pool.totalActiveConn = 0 → (Init pool n).totalActiveConn = 0) :=
  ⟨rfl, rfl, fun _ => ⟨rfl, rfl⟩, rfl, fun h => h⟩

/-- C18 as stated fails: on a pool that has made two connections, a second
`Init` gives empty maps and leaves `totalActiveConn` at `2`. -/
theorem Init_on_used_pool_counterexample :
    poolTwoHeld.totalActiveConn = 2 ∧
    (Init poolTwoHeld 2).connMap = [] ∧
    (Init poolTwoHeld 2).activeConnCounter = [] ∧
    (Init poolTwoHeld 2).totalActiveConn = 2 ∧
    (Init poolTwoHeld 2).totalActiveConn ≠ 0 := by
  decide

/-! ## The calls `newConnection` makes -/

theorem newConnection_events_dial_fails (ext : External) (pool : ClientConnectionPool)
    (server : ExpireMember) (e : String) (h : ext.dialErr = some e) :
    newConnection ext pool server =
      { ret := (none, some (GoError.external e)), pool := pool
        events := [Event.dial (server.AdvertiseAddr ++ ":" ++ Itoa server.Port)]
        panicked := false } := by
  unfold newConnection
  simp [h]

theorem newConnection_events_validate_fails (ext : External) (pool : ClientConnectionPool)
    (server : ExpireMember) (e : String) (h : ext.dialErr = none)
    (h1 : ext.validateErr = some e) :
    newConnection ext pool server =
      { ret := (none, some (GoError.external e)), pool := pool
        events := [Event.dial (server.AdvertiseAddr ++ ":" ++ Itoa server.Port),
          Event.newBridge ext.bridge, Event.validateConnection ext.bridge,
          Event.close (some ext.bridge)]
        panicked := false } := by
  unfold newConnection
  simp [h, h1]

theorem newConnection_events_sync_fails (ext : External) (pool : ClientConnectionPool)
    (server : ExpireMember) (e : String) (h : Registers ext) (h2 : ext.syncErr = some e) :
    newConnection ext pool server =
      { ret := (none, some (GoError.external e)), pool := pool
        events := [Event.dial (server.AdvertiseAddr ++ ":" ++ Itoa server.Port),
          Event.newBridge ext.bridge, Event.validateConnection ext.bridge,
          Event.updateTrackerSyncId ext.uuid 0, Event.close (some ext.bridge)]
        panicked := false } := by
  obtain ⟨d1, d2, d3, d4⟩ := h
  unfold newConnection
  simp [d1, d2, d3, d4, h2]

theorem newConnection_events_registered (ext : External) (pool : ClientConnectionPool)
    (server : ExpireMember) (h : Registers ext) (h2 : ext.syncErr = none) :
    newConnection ext pool server =
      { ret := (some ext.bridge, none), pool := (IncreaseActiveConnection pool server 1).pool
        events := [Event.dial (server.AdvertiseAddr ++ ":" ++ Itoa server.Port),
          Event.newBridge ext.bridge, Event.validateConnection ext.bridge,
          Event.updateTrackerSyncId ext.uuid 0,
          Event.increaseActiveConnection (GetStorageServerUID server) 1]
        panicked := false } := by
  obtain ⟨d1, d2, d3, d4⟩ := h
  unfold newConnection
  simp [d1, d2, d3, d4, h2, IncreaseActiveConnection]

theorem newConnection_events_unregistered (ext : External) (pool : ClientConnectionPool)
    (server : ExpireMember) (h : ¬ Registers ext) (u : String) (p : Int) :
    Event.updateTrackerSyncId u p ∉ (newConnection ext pool server).events := by
  unfold Registers at h
  unfold newConnection
  split
  · simp
  · split
    · simp
    · rename_i hd _ hv
      split
      · rename_i hn
        exact absurd ⟨hd, hv, hn.1, hn.2⟩ h
      · simp [IncreaseActiveConnection]

/-- C16. In `newConnection`: when the dial succeeds and the handshake fails,
and when dial and handshake succeed and the registration call that is due
fails, the Bridge just made is closed once, as the last call before the
return, and `(nil, error)` is returned; when the dial fails no Bridge is made
and nothing is closed. -/
theorem newConnection_closes_on_failure (ext : External) (pool : ClientConnectionPool)
    (server : ExpireMember) (e : String) :
    (ext.dialErr = none ∧ ext.validateErr = some e →
      (newConnection ext pool server).events =
        [Event.dial (server.AdvertiseAddr ++ ":" ++ Itoa server.Port),
         Event.newBridge ext.bridge, Event.validateConnection ext.bridge,
         Event.close (some ext.bridge)] ∧
      List.count (Event.close (some ext.bridge)) (newConnection ext pool server).events = 1 ∧
      (∀ b, Event.close b ∈ (newConnection ext pool server).events → b = some ext.bridge) ∧
      (newConnection ext pool server).ret = (none, some (GoError.external e))) ∧
    (Registers ext ∧ ext.syncErr = some e →
      (newConnection ext pool server).events =
        [Event.dial (server.AdvertiseAddr ++ ":" ++ Itoa server.Port),
         Event.newBridge ext.bridge, Event.validateConnection ext.bridge,
         Event.updateTrackerSyncId ext.uuid 0, Event.close (some ext.bridge)] ∧
      List.count (Event.close (some ext.bridge)) (newConnection ext pool server).events = 1 ∧
      (∀ b, Event.close b ∈ (newConnection ext pool server).events → b = some ext.bridge) ∧
      (newConnection ext pool server).ret = (none, some (GoError.external e))) ∧
    (ext.dialErr = some e →
      (newConnection ext pool server).events =
        [Event.dial (server.AdvertiseAddr ++ ":" ++ Itoa server.Port)] ∧
      (∀ b, Event.newBridge b ∉ (newConnection ext pool server).events) ∧
      (∀ b, Event.close b ∉ (newConnection ext pool server).events) ∧
      (newConnection ext pool server).ret = (none, some (GoError.external e))) := by
  refine ⟨?_, ?_, ?_⟩
  · rintro ⟨h, h1⟩
    rw [newConnection_events_validate_fails ext pool server e h h1]
    refine ⟨rfl, ?_, ?_, rfl⟩
    · simp [List.count_cons]
    · intro b hb
      simpa using hb
  · rintro ⟨h, h2⟩
    rw [newConnection_events_sync_fails ext pool server e h h2]
    refine ⟨rfl, ?_, ?_, rfl⟩
    · simp [List.count_cons]
    · intro b hb
      simpa using hb
  · intro h
    rw [newConnection_events_dial_fails ext pool server e h]
    refine ⟨rfl, ?_, ?_, rfl⟩
    · intro b
      simp
    · intro b
      simp

theorem newConnection_closes_on_failure_witness :
    (newConnection (extHandshakeFails 7) poolTwoIdle peerA).events =
      [Event.dial "10.0.0.1:1024", Event.newBridge 7, Event.validateConnection 7,
       Event.close (some 7)] ∧
    List.count (Event.close (some 7)) (newConnection (extHandshakeFails 7) poolTwoIdle peerA).events
      = 1 ∧
    (∀ b, Event.close b ∈ (newConnection (extHandshakeFails 7) poolTwoIdle peerA).events →
      b = some 7) ∧
    (newConnection (extHandshakeFails 7) poolTwoIdle peerA).ret
      = (none, some (GoError.external "validate failed")) :=
  (newConnection_closes_on_failure (extHandshakeFails 7) poolTwoIdle peerA "validate failed").1
    (by decide)

/-- C17. A `GetConnBridge` that goes on to make a connection (empty idle list,
counter below the cap) calls `UpdateTrackerSyncId` once, with the UUID of the
Bridge and `0`, when the handshake succeeds reporting a new identifier and
`app.CLIENT_TYPE` is `1`; the call comes after the handshake and before the
counter is increased (or, when it fails, before the Bridge is closed), all
within the `GetConnBridge`. In every other case `GetConnBridge` does not call
it. -/
theorem registration_called_once (ext : External) (pool : ClientConnectionPool)
    (server : ExpireMember) :
    (idleList pool server = [] ∧ activeCount pool server < pool.maxConnPerServer ∧
        Registers ext →
      (GetConnBridge ext pool server).events =
        [Event.increaseActiveConnection (GetStorageServerUID server) 0,
         Event.dial (server.AdvertiseAddr ++ ":" ++ Itoa server.Port),
         Event.newBridge ext.bridge, Event.validateConnection ext.bridge,
         Event.updateTrackerSyncId ext.uuid 0] ++
        (if ext.syncErr = none then [Event.increaseActiveConnection (GetStorageServerUID server) 1]
         else [Event.close (some ext.bridge)]) ∧
      List.count (Event.updateTrackerSyncId ext.uuid 0) (GetConnBridge ext pool server).events = 1 ∧
      (∀ u p, Event.updateTrackerSyncId u p ∈ (GetConnBridge ext pool server).events →
        u = ext.uuid ∧ p = 0)) ∧
    (¬ (idleList pool server = [] ∧ activeCount pool server < pool.maxConnPerServer ∧
        Registers ext) →
      ∀ u p, Event.updateTrackerSyncId u p ∉ (GetConnBridge ext pool server).events) := by
  constructor
  · rintro ⟨hl, hc, hreg⟩
    rw [GetConnBridge_dial ext pool server hl hc]
    cases hs : ext.syncErr with
    | none =>
      rw [newConnection_events_registered ext _ server hreg hs]
      refine ⟨by simp, ?_, ?_⟩
      · simp [List.count_cons]
      · intro u p hm
        simpa using hm
    | some e =>
      rw [newConnection_events_sync_fails ext _ server e hreg hs]
      refine ⟨by simp, ?_, ?_⟩
      · simp [List.count_cons]
      · intro u p hm
        simpa using hm
  · intro hnot u p
    cases hl : idleList pool server with
    | cons front rest =>
      rw [GetConnBridge_hit ext pool server front rest hl]
      simp
    | nil =>
      by_cases hc : activeCount pool server < pool.maxConnPerServer
      · have hreg : ¬ Registers ext := fun hr => hnot ⟨hl, hc, hr⟩
        rw [GetConnBridge_dial ext pool server hl hc]
        intro hm
        rcases List.mem_cons.mp hm with h1 | h1
        · cases h1
        · exact newConnection_events_unregistered ext _ server hreg u p h1
      · rw [GetConnBridge_full ext pool server hl (le_of_not_lt hc)]
        simp

theorem registration_called_once_witness :
    (GetConnBridge (extOk 1) (Init zeroPool 2) peerA).events =
      [Event.increaseActiveConnection "10.0.0.1:1024:G01:s1" 0, Event.dial "10.0.0.1:1024",
       Event.newBridge 1, Event.validateConnection 1, Event.updateTrackerSyncId "uuid" 0,
       Event.increaseActiveConnection "10.0.0.1:1024:G01:s1" 1] ∧
    List.count (Event.updateTrackerSyncId (extOk 1).uuid 0)
      (GetConnBridge (extOk 1) (Init zeroPool 2) peerA).events = 1 ∧
    (∀ u p, Event.updateTrackerSyncId u p ∈ (GetConnBridge (extOk 1) (Init zeroPool 2) peerA).events →
      u = (extOk 1).uuid ∧ p = 0) :=
  ⟨by decide,
   ((registration_called_once (extOk 1) (Init zeroPool 2) peerA).1 (by decide)).2⟩

/-! ## One peer does not touch another -/

/-- C19. When the keys of the peers `p` and `q` differ, a `GetConnBridge(p)`,
a `ReturnConnBridge(p, c)`, a `ReturnBrokenConnBridge(p, c)` and an
`IncreaseActiveConnection(p, d)` each leave the idle list of `q`, the active
counter of `q` and `maxConnPerServer` as they were. -/
theorem peer_isolation (pool : ClientConnectionPool) (p q : ExpireMember) (ext : External)
    (c : BridgePtr) (d : Int) (h : GetStorageServerUID p ≠ GetStorageServerUID q) :
    (idleList (GetConnBridge ext pool p).pool q = idleList pool q ∧
      activeCount (GetConnBridge ext pool p).pool q = activeCount pool q ∧
      (GetConnBridge ext pool p).pool.maxConnPerServer = pool.maxConnPerServer) ∧
    (idleList (ReturnConnBridge pool p c).pool q = idleList pool q ∧
      activeCount (ReturnConnBridge pool p c).pool q = activeCount pool q ∧
      (ReturnConnBridge pool p c).pool.maxConnPerServer = pool.maxConnPerServer) ∧
    (idleList (ReturnBrokenConnBridge pool p c).pool q = idleList pool q ∧
      activeCount (ReturnBrokenConnBridge pool p c).pool q = activeCount pool q ∧
      (ReturnBrokenConnBridge pool p c).pool.maxConnPerServer = pool.maxConnPerServer) ∧
    (idleList (IncreaseActiveConnection pool p d).pool q = idleList pool q ∧
      activeCount (IncreaseActiveConnection pool p d).pool q = activeCount pool q ∧
      (IncreaseActiveConnection pool p d).pool.maxConnPerServer = pool.maxConnPerServer) := by
  have hq : ¬ GetStorageServerUID q = GetStorageServerUID p := fun e => h e.symm
  refine ⟨⟨?_, ?_, GetConnBridge_cap ext pool p⟩, ⟨?_, rfl, rfl⟩, ⟨rfl, ?_, rfl⟩, ⟨rfl, ?_, rfl⟩⟩
  · unfold idleList
    rcases GetConnBridge_cases ext pool p with
      ⟨_, _, _, _, _, hi, _⟩ | ⟨_, _, _, hi, _⟩ | ⟨_, _, _, _, hi, _⟩
    · rw [hi]; simp only [hq, if_false]
    · rw [hi]
    · rw [hi]
  · unfold activeCount
    rcases GetConnBridge_cases ext pool p with
      ⟨_, _, _, _, _, _, ha⟩ | ⟨_, _, _, _, ha⟩ | ⟨_, _, _, _, _, ha⟩
    · rw [ha]
    · rw [ha]
    · rw [ha]; simp only [hq, if_false]
  · unfold idleList
    rw [ReturnConnBridge_idleAt]
    simp only [hq, if_false]
  · unfold activeCount
    rw [ReturnBrokenConnBridge_activeAt]
    simp only [hq, if_false]
  · unfold activeCount
    rw [IncreaseActiveConnection_activeAt]
    simp only [hq, if_false]

theorem peer_isolation_witness :
    (GetStorageServerUID peerA ≠ GetStorageServerUID peerB ∧
      idleList poolBothPeers peerB = [some 2] ∧ activeCount poolBothPeers peerB = 1 ∧
      activeCount poolBothPeers peerA = 1 ∧
      activeCount (GetConnBridge (extOk 3) poolBothPeers peerA).pool peerA = 2 ∧
      idleList (ReturnConnBridge poolBothPeers peerA (some 1)).pool peerA = [some 1] ∧
      activeCount (ReturnBrokenConnBridge poolBothPeers peerA (some 1)).pool peerA = 0 ∧
      activeCount (IncreaseActiveConnection poolBothPeers peerA 4).pool peerA = 5) ∧
    (idleList (GetConnBridge (extOk 3) poolBothPeers peerA).pool peerB
        = idleList poolBothPeers peerB ∧
      activeCount (GetConnBridge (extOk 3) poolBothPeers peerA).pool peerB
        = activeCount poolBothPeers peerB ∧
      (GetConnBridge (extOk 3) poolBothPeers peerA).pool.maxConnPerServer
        = poolBothPeers.maxConnPerServer) ∧
    (idleList (ReturnConnBridge poolBothPeers peerA (some 1)).pool peerB
        = idleList poolBothPeers peerB ∧
      activeCount (ReturnConnBridge poolBothPeers peerA (some 1)).pool peerB
        = activeCount poolBothPeers peerB ∧
      (ReturnConnBridge poolBothPeers peerA (some 1)).pool.maxConnPerServer
        = poolBothPeers.maxConnPerServer) ∧
    (idleList (ReturnBrokenConnBridge poolBothPeers peerA (some 1)).pool peerB
        = idleList poolBothPeers peerB ∧
      activeCount (ReturnBrokenConnBridge poolBothPeers peerA (some 1)).pool peerB
        = activeCount poolBothPeers peerB ∧
      (ReturnBrokenConnBridge poolBothPeers peerA (some 1)).pool.maxConnPerServer
        = poolBothPeers.maxConnPerServer) ∧
    (idleList (IncreaseActiveConnection poolBothPeers peerA 4).pool peerB
        = idleList poolBothPeers peerB ∧
      activeCount (IncreaseActiveConnection poolBothPeers peerA 4).pool peerB
        = activeCount poolBothPeers peerB ∧
      (IncreaseActiveConnection poolBothPeers peerA 4).pool.maxConnPerServer
        = poolBothPeers.maxConnPerServer) :=
  ⟨by decide, peer_isolation poolBothPeers peerA peerB (extOk 3) (some 1) 4 (by decide)⟩

/-! ## The keys of `connMap` -/

theorem mapGet_mapSet_ne_none {V : Type} (m : GoMap V) (k q : String) (v : V)
    (h : mapGet m q ≠ none) : mapGet (mapSet m k v) q ≠ none := by
  by_cases hq : q = k
  · subst hq
    rw [mapGet_mapSet_same]
    simp
  · rw [mapGet_mapSet_other m k q v hq]
    exact h

/-- The `connMap` a `GetConnBridge` leaves is the one `getConnMap` leaves, with
at most one more write under the key of the peer. -/
theorem GetConnBridge_connMap (ext : External) (pool : ClientConnectionPool)
    (server : ExpireMember) :
    (GetConnBridge ext pool server).pool.connMap = (getConnMap pool server).pool.connMap ∨
    ∃ l, (GetConnBridge ext pool server).pool.connMap
      = mapSet (getConnMap pool server).pool.connMap (GetStorageServerUID server) l := by
  cases hl : idleList pool server with
  | cons front rest =>
    right
    rw [GetConnBridge_hit ext pool server front rest hl]
    exact ⟨rest, rfl⟩
  | nil =>
    left
    by_cases hc : activeCount pool server < pool.maxConnPerServer
    · rw [GetConnBridge_dial ext pool server hl hc]
      rcases newConnection_pool_cases ext
        (IncreaseActiveConnection (getConnMap pool server).pool server 0).pool server
        with ⟨h1, -, -⟩ | ⟨h1, -⟩
      · simp only [h1, IncreaseActiveConnection_connMap]
      · simp only [h1, IncreaseActiveConnection_connMap]
    · rw [GetConnBridge_full ext pool server hl (le_of_not_lt hc)]
      rfl

theorem getConnMap_keeps_keys (pool : ClientConnectionPool) (server : ExpireMember) (q : String)
    (h : mapGet pool.connMap q ≠ none) :
    mapGet (getConnMap pool server).pool.connMap q ≠ none :=
  mapGet_mapSet_ne_none pool.connMap (GetStorageServerUID server) q _ h

theorem stepAny_keeps_keys (pool : ClientConnectionPool) (call : PoolCall) (q : String)
    (h : mapGet pool.connMap q ≠ none) : mapGet (stepAny pool call).connMap q ≠ none := by
  cases call with
  | IncreaseActiveConnection server value => exact h
  | method c =>
    cases c with
    | GetConnBridge server ext =>
      show mapGet (GetConnBridge ext pool server).pool.connMap q ≠ none
      rcases GetConnBridge_connMap ext pool server with h1 | ⟨l, h1⟩
      · rw [h1]
        exact getConnMap_keeps_keys pool server q h
      · rw [h1]
        exact mapGet_mapSet_ne_none _ _ q l (getConnMap_keeps_keys pool server q h)
    | ReturnConnBridge server b =>
      show mapGet (ReturnConnBridge pool server b).pool.connMap q ≠ none
      exact mapGet_mapSet_ne_none _ _ q _ (getConnMap_keeps_keys pool server q h)
    | ReturnBrokenConnBridge server b => exact h

theorem stepAny_stores_key (pool : ClientConnectionPool) (call : PoolCall)
    (server : ExpireMember) (h : passesToGetConnMap server call = true) :
    mapGet (stepAny pool call).connMap (GetStorageServerUID server) ≠ none := by
  cases call with
  | IncreaseActiveConnection s value => simp [passesToGetConnMap] at h
  | method c =>
    cases c with
    | GetConnBridge s ext =>
      have hk : GetStorageServerUID s = GetStorageServerUID server := by
        simpa [passesToGetConnMap] using h
      rw [← hk]
      show mapGet (GetConnBridge ext pool s).pool.connMap (GetStorageServerUID s) ≠ none
      rcases GetConnBridge_connMap ext pool s with h1 | ⟨l, h1⟩
      · rw [h1, getConnMap_stored]
        simp
      · rw [h1, mapGet_mapSet_same]
        simp
    | ReturnConnBridge s b =>
      have hk : GetStorageServerUID s = GetStorageServerUID server := by
        simpa [passesToGetConnMap] using h
      rw [← hk]
      show mapGet (ReturnConnBridge pool s b).pool.connMap (GetStorageServerUID s) ≠ none
      unfold ReturnConnBridge
      simp only [mapGet_mapSet_same]
      simp
    | ReturnBrokenConnBridge s b => simp [passesToGetConnMap] at h

theorem runAny_keeps_keys (pool : ClientConnectionPool) (calls : List PoolCall) (q : String)
    (h : mapGet pool.connMap q ≠ none) : mapGet (runAny pool calls).connMap q ≠ none := by
  induction calls generalizing pool with
  | nil => exact h
  | cons c cs ih => exact ih (stepAny pool c) (stepAny_keeps_keys pool c q h)

theorem runAny_stores_key (pool : ClientConnectionPool) (calls : List PoolCall)
    (server : ExpireMember) (h : ∃ c ∈ calls, passesToGetConnMap server c = true) :
    mapGet (runAny pool calls).connMap (GetStorageServerUID server) ≠ none := by
  induction calls generalizing pool with
  | nil =>
    obtain ⟨c, hc, _⟩ := h
    simp at hc
  | cons c cs ih =>
    by_cases hp : passesToGetConnMap server c = true
    · exact runAny_keeps_keys (stepAny pool c) cs _ (stepAny_stores_key pool c server hp)
    · obtain ⟨c1, hc1, hp1⟩ := h
      rcases List.mem_cons.mp hc1 with h1 | h1
      · subst h1
        exact absurd hp1 hp
      · exact ih (stepAny pool c) ⟨c1, h1, hp1⟩

/-- C20. `getConnMap` always leaves a list stored under the key of the peer; no
call of `GetConnBridge`, `ReturnConnBridge`, `ReturnBrokenConnBridge` or
`IncreaseActiveConnection` takes a key out of `connMap`; so in every state
reached from `Init` by a sequence in which the peer was passed to
`GetConnBridge` or `ReturnConnBridge`, the read `pool.connMap[uid]` in
`ReturnBrokenConnBridge` finds a list and the `Len` call does not panic. -/
theorem connMap_entry_persists :
    (∀ pool server,
      mapGet (getConnMap pool server).pool.connMap (GetStorageServerUID server) ≠ none) ∧
    (∀ pool call q, mapGet pool.connMap q ≠ none → mapGet (stepAny pool call).connMap q ≠ none) ∧
    (∀ pool0 n calls server b, (∃ c ∈ calls, passesToGetConnMap server c = true) →
      mapGet (runAny (Init pool0 n) calls).connMap (GetStorageServerUID server) ≠ none ∧
      (ReturnBrokenConnBridge (runAny (Init pool0 n) calls) server b).panicked = false) := by
  refine ⟨?_, stepAny_keeps_keys, ?_⟩
  · intro pool server
    rw [getConnMap_stored]
    simp
  · intro pool0 n calls server b h
    have hk := runAny_stores_key (Init pool0 n) calls server h
    refine ⟨hk, ?_⟩
    show (mapGet (runAny (Init pool0 n) calls).connMap (GetStorageServerUID server)).isNone = false
    cases hm : mapGet (runAny (Init pool0 n) calls).connMap (GetStorageServerUID server) with
    | none => exact absurd hm hk
    | some l => rfl

theorem connMap_entry_persists_witness :
    (∃ c ∈ mixedCalls, passesToGetConnMap peerB c = true) ∧
    mapGet (runAny (Init zeroPool 2) mixedCalls).connMap (GetStorageServerUID peerB) ≠ none ∧
    (ReturnBrokenConnBridge (runAny (Init zeroPool 2) mixedCalls) peerB (some 2)).panicked = false :=
  ⟨by decide, connMap_entry_persists.2.2 zeroPool 2 mixedCalls peerB (some 2) (by decide)⟩

/-! ## The total counter is the sum of the counters of the peers -/

theorem counterSum_mapSet (m : GoMap Int) (k : String) (v : Int) :
    counterSum (mapSet m k v) = counterSum m - (mapGet m k).getD 0 + v := by
  induction m with
  | nil => simp [counterSum, mapSet, mapGet]
  | cons hd tl ih =>
    obtain ⟨k1, v1⟩ := hd
    by_cases h : k1 = k
    · simp only [mapSet, mapGet, h, if_true, counterSum, List.map_cons, List.sum_cons,
        Option.getD_some]
      omega
    · simp only [mapSet, mapGet, h, if_false]
      simp only [counterSum, List.map_cons, List.sum_cons] at ih ⊢
      omega

theorem mem_mapKeys_mapSet {V : Type} (m : GoMap V) (k q : String) (v : V)
    (h : q ∈ mapKeys (mapSet m k v)) : q = k ∨ q ∈ mapKeys m := by
  induction m with
  | nil =>
    left
    simpa [mapKeys, mapSet] using h
  | cons hd tl ih =>
    obtain ⟨k1, v1⟩ := hd
    by_cases h1 : k1 = k
    · simp only [mapSet, h1, if_true, mapKeys, List.map_cons, List.mem_cons] at h ⊢
      rcases h with h2 | h2
      · left; exact h2
      · right; right; exact h2
    · simp only [mapSet, h1, if_false, mapKeys, List.map_cons, List.mem_cons] at h ⊢
      rcases h with h2 | h2
      · right; left; exact h2
      · rcases ih h2 with h3 | h3
        · left; exact h3
        · right; right; exact h3

theorem nodup_mapKeys_mapSet {V : Type} (m : GoMap V) (k : String) (v : V)
    (h : (mapKeys m).Nodup) : (mapKeys (mapSet m k v)).Nodup := by
  induction m with
  | nil => simp [mapKeys, mapSet]
  | cons hd tl ih =>
    obtain ⟨k1, v1⟩ := hd
    have h0 : (k1 :: mapKeys tl).Nodup := h
    obtain ⟨hn, ht⟩ := List.nodup_cons.mp h0
    by_cases h1 : k1 = k
    · subst h1
      simp only [mapSet, if_true]
      exact h
    · simp only [mapSet, h1, if_false]
      show (k1 :: mapKeys (mapSet tl k v)).Nodup
      refine List.nodup_cons.mpr ⟨?_, ih ht⟩
      intro hm
      rcases mem_mapKeys_mapSet tl k k1 v hm with h2 | h2
      · exact h1 h2
      · exact hn h2

theorem Balanced_of_same_counters (base : Int) (pool pool1 : ClientConnectionPool)
    (hc : pool1.activeConnCounter = pool.activeConnCounter)
    (ht : pool1.totalActiveConn = pool.totalActiveConn) (h : Balanced base pool) :
    Balanced base pool1 := by
  unfold Balanced at *
  rw [hc, ht]
  exact h

theorem IncreaseActiveConnection_Balanced (base : Int) (pool : ClientConnectionPool)
    (server : ExpireMember) (value : Int) (h : Balanced base pool) :
    Balanced base (IncreaseActiveConnection pool server value).pool := by
  obtain ⟨h1, h2⟩ := h
  constructor
  · show addInt pool.totalActiveConn value % 18446744073709551616
      = (base + counterSum (mapSet pool.activeConnCounter (GetStorageServerUID server)
          (addInt ((mapGet pool.activeConnCounter (GetStorageServerUID server)).getD 0) value)))
        % 18446744073709551616
    rw [counterSum_mapSet]
    have e1 := addInt_emod pool.totalActiveConn value
    have e2 := addInt_emod ((mapGet pool.activeConnCounter (GetStorageServerUID server)).getD 0)
      value
    omega
  · exact nodup_mapKeys_mapSet pool.activeConnCounter _ _ h2

/-- The total counter a `GetConnBridge` leaves: as it was, or with `1` added. -/
theorem GetConnBridge_counters (ext : External) (pool : ClientConnectionPool)
    (server : ExpireMember) :
    ((GetConnBridge ext pool server).pool.activeConnCounter = pool.activeConnCounter ∧
      (GetConnBridge ext pool server).pool.totalActiveConn = pool.totalActiveConn) ∨
    (GetConnBridge ext pool server).pool
      = (IncreaseActiveConnection (getConnMap pool server).pool server 0).pool ∨
    (GetConnBridge ext pool server).pool
      = (IncreaseActiveConnection
          (IncreaseActiveConnection (getConnMap pool server).pool server 0).pool server 1).pool := by
  cases hl : idleList pool server with
  | cons front rest =>
    left
    rw [GetConnBridge_hit ext pool server front rest hl]
    exact ⟨rfl, rfl⟩
  | nil =>
    right
    by_cases hc : activeCount pool server < pool.maxConnPerServer
    · rw [GetConnBridge_dial ext pool server hl hc]
      rcases newConnection_pool_cases ext
        (IncreaseActiveConnection (getConnMap pool server).pool server 0).pool server
        with ⟨h1, -, -⟩ | ⟨h1, -⟩
      · left; exact h1
      · right; exact h1
    · left
      rw [GetConnBridge_full ext pool server hl (le_of_not_lt hc)]

theorem GetConnBridge_Balanced (base : Int) (ext : External) (pool : ClientConnectionPool)
    (server : ExpireMember) (h : Balanced base pool) :
    Balanced base (GetConnBridge ext pool server).pool := by
  have hg : Balanced base (getConnMap pool server).pool :=
    Balanced_of_same_counters base pool _ rfl rfl h
  have h0 := IncreaseActiveConnection_Balanced base (getConnMap pool server).pool server 0 hg
  rcases GetConnBridge_counters ext pool server with ⟨h1, h2⟩ | h1 | h1
  · exact Balanced_of_same_counters base pool _ h1 h2 h
  · rw [h1]; exact h0
  · rw [h1]; exact IncreaseActiveConnection_Balanced base _ server 1 h0

theorem GetConnBridge_total_InRange (ext : External) (pool : ClientConnectionPool)
    (server : ExpireMember) (h : InRange pool.totalActiveConn) :
    InRange (GetConnBridge ext pool server).pool.totalActiveConn := by
  have h0 : InRange (IncreaseActiveConnection (getConnMap pool server).pool server 0).pool.totalActiveConn := by
    rw [IncreaseActiveConnection_total, getConnMap_total, addInt_zero]
    exact h
  rcases GetConnBridge_counters ext pool server with ⟨-, h2⟩ | h1 | h1
  · rw [h2]; exact h
  · rw [h1]; exact h0
  · rw [h1, IncreaseActiveConnection_total]
    exact InRange_addInt _ _ h0 (by decide)

theorem stepAny_Balanced (base : Int) (pool : ClientConnectionPool) (call : PoolCall)
    (h : Balanced base pool) : Balanced base (stepAny pool call) := by
  cases call with
  | IncreaseActiveConnection server value =>
    exact IncreaseActiveConnection_Balanced base pool server value h
  | method c =>
    cases c with
    | GetConnBridge server ext => exact GetConnBridge_Balanced base ext pool server h
    | ReturnConnBridge server b => exact Balanced_of_same_counters base pool _ rfl rfl h
    | ReturnBrokenConnBridge server b =>
      exact IncreaseActiveConnection_Balanced base pool server (-1) h

theorem stepAny_total_InRange (pool : ClientConnectionPool) (call : PoolCall)
    (h : InRange pool.totalActiveConn) (hv : call.valueInRange) :
    InRange (stepAny pool call).totalActiveConn := by
  cases call with
  | IncreaseActiveConnection server value =>
    show InRange (addInt pool.totalActiveConn value)
    exact InRange_addInt _ _ h hv
  | method c =>
    cases c with
    | GetConnBridge server ext => exact GetConnBridge_total_InRange ext pool server h
    | ReturnConnBridge server b => exact h
    | ReturnBrokenConnBridge server b =>
      show InRange (addInt pool.totalActiveConn (-1))
      exact InRange_addInt _ _ h (by decide)

theorem runAny_Balanced (base : Int) (pool : ClientConnectionPool) (calls : List PoolCall)
    (h : Balanced base pool) : Balanced base (runAny pool calls) := by
  induction calls generalizing pool with
  | nil => exact h
  | cons c cs ih => exact ih (stepAny pool c) (stepAny_Balanced base pool c h)

theorem runAny_total_InRange (pool : ClientConnectionPool) (calls : List PoolCall)
    (h : InRange pool.totalActiveConn) (hv : ∀ c ∈ calls, c.valueInRange) :
    InRange (runAny pool calls).totalActiveConn := by
  induction calls generalizing pool with
  | nil => exact h
  | cons c cs ih =>
    exact ih (stepAny pool c)
      (stepAny_total_InRange pool c h (hv c (List.mem_cons_self _ _)))
      (fun d hd => hv d (List.mem_cons_of_mem _ hd))

/-- C14, as the code has it. Take a pool value that is new when `Init` is
called (its `totalActiveConn` is the zero of a new struct). In every state
reached from it by a sequence of `GetConnBridge`, `ReturnConnBridge`,
`ReturnBrokenConnBridge` and `IncreaseActiveConnection` calls on any peers,
the arguments being values of `int`, `totalActiveConn` is a value of `int`
that differs from the sum of the values in `activeConnCounter` by a multiple
of `2^64`; it is that sum whenever the sum is a value of `int`. The counter
map holds one value for a key. -/
theorem total_is_sum_of_counters (pool0 : ClientConnectionPool) (n : Int)
    (calls : List PoolCall) (hnew : pool0.totalActiveConn = 0)
    (hval : ∀ c ∈ calls, c.valueInRange) :
    (runAny (Init pool0 n) calls).totalActiveConn % 18446744073709551616
      = counterSum (runAny (Init pool0 n) calls).activeConnCounter % 18446744073709551616 ∧
    InRange (runAny (Init pool0 n) calls).totalActiveConn ∧
    (InRange (counterSum (runAny (Init pool0 n) calls).activeConnCounter) →
      (runAny (Init pool0 n) calls).totalActiveConn
        = counterSum (runAny (Init pool0 n) calls).activeConnCounter) ∧
    (mapKeys (runAny (Init pool0 n) calls).activeConnCounter).Nodup := by
  have h0 : Balanced 0 (Init pool0 n) := by
    constructor
    · show pool0.totalActiveConn % 18446744073709551616
        = (0 + counterSum []) % 18446744073709551616
      rw [hnew]
      rfl
    · exact List.nodup_nil
  have hr0 : InRange (Init pool0 n).totalActiveConn := by
    show InRange pool0.totalActiveConn
    rw [hnew]
    decide
  obtain ⟨h1, h2⟩ := runAny_Balanced 0 (Init pool0 n) calls h0
  have hr := runAny_total_InRange (Init pool0 n) calls hr0 hval
  rw [Int.zero_add] at h1
  refine ⟨h1, hr, ?_, h2⟩
  intro hs
  unfold InRange minInt maxInt at hr hs
  omega

theorem total_is_sum_of_counters_witness :
    (zeroPool.totalActiveConn = 0 ∧ ∀ c ∈ mixedCalls, c.valueInRange) ∧
    (runAny (Init zeroPool 2) mixedCalls).totalActiveConn % 18446744073709551616
      = counterSum (runAny (Init zeroPool 2) mixedCalls).activeConnCounter
        % 18446744073709551616 ∧
    InRange (runAny (Init zeroPool 2) mixedCalls).totalActiveConn ∧
    (InRange (counterSum (runAny (Init zeroPool 2) mixedCalls).activeConnCounter) →
      (runAny (Init zeroPool 2) mixedCalls).totalActiveConn
        = counterSum (runAny (Init zeroPool 2) mixedCalls).activeConnCounter) ∧
    (mapKeys (runAny (Init zeroPool 2) mixedCalls).activeConnCounter).Nodup :=
  ⟨by decide, total_is_sum_of_counters zeroPool 2 mixedCalls (by decide) (by decide)⟩

/-- C14 as stated fails: after `Init(2)` on a new pool,
`IncreaseActiveConnection(peerA, maxInt)` and `IncreaseActiveConnection(peerB, 1)`
leave the counters `maxInt` and `1`, whose sum is `2^63`, and the total counter
at the smallest value of `int`. -/
theorem total_wraps_counterexample :
    zeroPool.totalActiveConn = 0 ∧
    (∀ c ∈ overflowCalls, c.valueInRange) ∧
    activeCount (runAny (Init zeroPool 2) overflowCalls) peerA = 9223372036854775807 ∧
    activeCount (runAny (Init zeroPool 2) overflowCalls) peerB = 1 ∧
    counterSum (runAny (Init zeroPool 2) overflowCalls).activeConnCounter
      = 9223372036854775808 ∧
    (runAny (Init zeroPool 2) overflowCalls).totalActiveConn = -9223372036854775808 ∧
    (runAny (Init zeroPool 2) overflowCalls).totalActiveConn
      ≠ counterSum (runAny (Init zeroPool 2) overflowCalls).activeConnCounter := by
  decide

/-! ## The active counter is not negative on well-formed sequences -/

theorem statesAfter_nonneg (pool : ClientConnectionPool) (held : Held) (calls : List Call)
    (hinv : Counted pool held) (hcap : pool.maxConnPerServer ≤ maxInt)
    (hwf : wellFormedFrom pool held calls = true) :
    ∀ s ∈ statesAfter pool calls, ∀ q, 0 ≤ activeAt s q := by
  induction calls generalizing pool held with
  | nil => simp [statesAfter]
  | cons c cs ih =>
    simp only [wellFormedFrom, Bool.and_eq_true] at hwf
    have hstep := step_Counted pool held c hinv hcap hwf.1
    intro s hs
    simp only [statesAfter, List.mem_cons] at hs
    rcases hs with rfl | hs
    · exact Counted_nonneg _ _ hstep
    · exact ih (step pool c) (heldAfter pool held c) hstep (by rw [step_cap]; exact hcap)
        hwf.2 s hs

/-- C11, as the code has it. After `Init(n)` and along a sequence of
`GetConnBridge`, `ReturnConnBridge` and `ReturnBrokenConnBridge` calls in which
every connection handed back or discarded is one a caller holds, got for the
same peer, the active counter of a peer is not negative after any call. -/
theorem active_counter_nonneg_when_well_formed (pool0 : ClientConnectionPool) (n : Int)
    (calls : List Call) (server : ExpireMember)
    (hwf : wellFormed (Init pool0 n) calls = true) :
    ∀ s ∈ statesAfter (Init pool0 n) calls, 0 ≤ activeCount s server := by
  have h0 : Counted (Init pool0 n) [] := by
    intro q
    show (0 : Int) = ((([] : List BridgePtr).length : Nat) : Int) + ((0 : Nat) : Int)
    simp
  have hr := Init_cap_range pool0 n
  intro s hs
  exact statesAfter_nonneg (Init pool0 n) [] calls h0 (by unfold maxInt; omega) hwf s hs
    (GetStorageServerUID server)

theorem active_counter_nonneg_when_well_formed_witness :
    wellFormed (Init zeroPool 3) wellFormedCalls = true ∧
    ∀ s ∈ statesAfter (Init zeroPool 3) wellFormedCalls, 0 ≤ activeCount s peerA :=
  ⟨by decide,
   active_counter_nonneg_when_well_formed zeroPool 3 wellFormedCalls peerA (by decide)⟩

/-- C11 as stated fails: after `Init(2)`, a connection to `peerA` made and then
discarded twice leaves the active counter of `peerA` at `-1`; the second
discard is of a connection no caller holds, and it ends without a panic. -/
theorem active_counter_negative_counterexample :
    (∀ c ∈ doubleDiscard, c.server = peerA) ∧
    activeCount (run (Init zeroPool 2) doubleDiscard) peerA = -1 ∧
    run (Init zeroPool 2) doubleDiscard ∈ statesAfter (Init zeroPool 2) doubleDiscard ∧
    ¬ (0 ≤ activeCount (run (Init zeroPool 2) doubleDiscard) peerA) ∧
    wellFormed (Init zeroPool 2) doubleDiscard = false ∧
    (ReturnBrokenConnBridge (run (Init zeroPool 2) (doubleDiscard.take 2)) peerA (some 1)).panicked
      = false := by
  decide

/-! ## Keys of peers -/

theorem digitChar_isDigit (k : Nat) (h : k < 10) :
    (Nat.digitChar k).isDigit = true ∧ (Nat.digitChar k).toNat - 48 = k := by
  interval_cases k <;> decide

theorem digitsValue_append_singleton (xs : List Char) (c : Char) :
    digitsValue (xs ++ [c]) = digitsValue xs * 10 + (c.toNat - 48) := by
  simp [digitsValue, List.foldl_append]

/-- With enough fuel `Nat.toDigitsCore` puts in front of `ds` a non-empty list
of decimal digits that writes `n`. -/
theorem toDigitsCore_spec (fuel : Nat) : ∀ (n : Nat) (ds : List Char), n < fuel →
    ∃ xs, Nat.toDigitsCore 10 fuel n ds = xs ++ ds ∧ xs ≠ [] ∧
      (∀ c ∈ xs, c.isDigit = true) ∧ digitsValue xs = n := by
  induction fuel with
  | zero => intro n ds h; omega
  | succ fuel ih =>
    intro n ds h
    have hd := digitChar_isDigit (n % 10) (Nat.mod_lt n (by decide))
    by_cases h0 : n / 10 = 0
    · refine ⟨[Nat.digitChar (n % 10)], ?_, by simp, ?_, ?_⟩
      · simp [Nat.toDigitsCore, h0]
      · intro c hc
        rw [List.mem_singleton] at hc
        rw [hc]; exact hd.1
      · have hv : digitsValue [Nat.digitChar (n % 10)] = (Nat.digitChar (n % 10)).toNat - 48 := by
          simp [digitsValue]
        rw [hv, hd.2]
        omega
    · have hlt : n / 10 < fuel := by omega
      obtain ⟨xs, h1, _, h3, h4⟩ := ih (n / 10) (Nat.digitChar (n % 10) :: ds) hlt
      refine ⟨xs ++ [Nat.digitChar (n % 10)], ?_, by simp, ?_, ?_⟩
      · simp [Nat.toDigitsCore, h0, h1]
      · intro c hc
        rcases List.mem_append.mp hc with hc | hc
        · exact h3 c hc
        · rw [List.mem_singleton] at hc
          rw [hc]; exact hd.1
      · rw [digitsValue_append_singleton, h4, hd.2]
        omega

theorem repr_spec (n : Nat) :
    (Nat.repr n).data ≠ [] ∧ (∀ c ∈ (Nat.repr n).data, c.isDigit = true) ∧
    digitsValue (Nat.repr n).data = n := by
  obtain ⟨xs, h1, h2, h3, h4⟩ := toDigitsCore_spec (n + 1) n [] (Nat.lt_succ_self n)
  have hx : (Nat.repr n).data = xs := by
    show Nat.toDigits 10 n = xs
    unfold Nat.toDigits
    rw [h1]; simp
  rw [hx]
  exact ⟨h2, h3, h4⟩

theorem Itoa_ofNat (m : Nat) : (Itoa (Int.ofNat m)).data = (Nat.repr m).data := rfl

theorem Itoa_negSucc (m : Nat) :
    (Itoa (Int.negSucc m)).data = '-' :: (Nat.repr (m + 1)).data := rfl

theorem Itoa_no_colon (i : Int) : ':' ∉ (Itoa i).data := by
  have hdig : ∀ n, ':' ∉ (Nat.repr n).data := by
    intro n hm
    have := (repr_spec n).2.1 ':' hm
    exact absurd this (by decide)
  cases i with
  | ofNat m =>
    rw [Itoa_ofNat]
    exact hdig m
  | negSucc m =>
    rw [Itoa_negSucc]
    intro hm
    rcases List.mem_cons.mp hm with h1 | h1
    · exact absurd h1 (by decide)
    · exact hdig _ h1

theorem Itoa_injective (i j : Int) (h : (Itoa i).data = (Itoa j).data) : i = j := by
  have hval : ∀ m k : Nat, (Nat.repr m).data = (Nat.repr k).data → m = k := by
    intro m k hmk
    have h1 := (repr_spec m).2.2
    have h2 := (repr_spec k).2.2
    rw [hmk] at h1
    omega
  have hmix : ∀ m k : Nat, (Nat.repr m).data ≠ '-' :: (Nat.repr (k + 1)).data := by
    intro m k hmk
    have h1 := (repr_spec m).2.1 '-' (by rw [hmk]; exact List.mem_cons_self _ _)
    exact absurd h1 (by decide)
  cases i with
  | ofNat m =>
    cases j with
    | ofNat k =>
      rw [Itoa_ofNat, Itoa_ofNat] at h
      rw [hval m k h]
    | negSucc k =>
      rw [Itoa_ofNat, Itoa_negSucc] at h
      exact absurd h (hmix m k)
  | negSucc m =>
    cases j with
    | ofNat k =>
      rw [Itoa_ofNat, Itoa_negSucc] at h
      exact absurd h.symm (hmix k m)
    | negSucc k =>
      rw [Itoa_negSucc, Itoa_negSucc] at h
      have h1 := hval (m + 1) (k + 1) (List.cons.inj h).2
      have h2 : m = k := by omega
      rw [h2]

/-- Two texts cut at their first colon: equal wholes have equal parts. -/
theorem split_at_colon (x y r t : List Char) (hx : ':' ∉ x) (hy : ':' ∉ y)
    (h : x ++ ':' :: r = y ++ ':' :: t) : x = y ∧ r = t := by
  induction x generalizing y with
  | nil =>
    cases y with
    | nil => exact ⟨rfl, (List.cons.inj h).2⟩
    | cons b y1 =>
      have hb : ':' = b := (List.cons.inj h).1
      exact absurd (hb ▸ List.mem_cons_self _ _) hy
  | cons a x1 ih =>
    cases y with
    | nil =>
      have ha : a = ':' := (List.cons.inj h).1
      exact absurd (ha ▸ List.mem_cons_self _ _) hx
    | cons b y1 =>
      obtain ⟨hab, hrest⟩ := List.cons.inj h
      have hx1 : ':' ∉ x1 := fun hm => hx (List.mem_cons_of_mem _ hm)
      have hy1 : ':' ∉ y1 := fun hm => hy (List.mem_cons_of_mem _ hm)
      obtain ⟨h1, h2⟩ := ih y1 hx1 hy1 hrest
      exact ⟨by rw [hab, h1], h2⟩

theorem GetStorageServerUID_data (p : ExpireMember) :
    (GetStorageServerUID p).data
      = p.AdvertiseAddr.data ++ ':' :: ((Itoa p.Port).data ++ ':' ::
          (p.Group.data ++ ':' :: p.InstanceId.data)) := by
  unfold GetStorageServerUID
  simp only [String.data_append]
  simp

/-- C13, as the code has it. Peers with the same four fields have the same
key. For two peers whose `AdvertiseAddr` and `Group` have no colon in them,
the keys are the same exactly when all four fields are equal, so such peers
share an idle list and a counter only when they are the same peer. -/
theorem GetStorageServerUID_injective_without_colon (p q : ExpireMember) :
    ((p.AdvertiseAddr = q.AdvertiseAddr ∧ p.Port = q.Port ∧ p.Group = q.Group ∧
        p.InstanceId = q.InstanceId) →
      GetStorageServerUID p = GetStorageServerUID q) ∧
    (NoColon p.AdvertiseAddr → NoColon q.AdvertiseAddr → NoColon p.Group → NoColon q.Group →
      (GetStorageServerUID p = GetStorageServerUID q ↔
        (p.AdvertiseAddr = q.AdvertiseAddr ∧ p.Port = q.Port ∧ p.Group = q.Group ∧
          p.InstanceId = q.InstanceId))) := by
  have hfwd : (p.AdvertiseAddr = q.AdvertiseAddr ∧ p.Port = q.Port ∧ p.Group = q.Group ∧
      p.InstanceId = q.InstanceId) → GetStorageServerUID p = GetStorageServerUID q := by
    rintro ⟨h1, h2, h3, h4⟩
    unfold GetStorageServerUID
    rw [h1, h2, h3, h4]
  refine ⟨hfwd, ?_⟩
  intro hpa hqa hpg hqg
  refine ⟨?_, hfwd⟩
  intro hk
  have hd : (GetStorageServerUID p).data = (GetStorageServerUID q).data := by rw [hk]
  rw [GetStorageServerUID_data, GetStorageServerUID_data] at hd
  obtain ⟨ha, hd1⟩ := split_at_colon _ _ _ _ hpa hqa hd
  obtain ⟨hport, hd2⟩ := split_at_colon _ _ _ _ (Itoa_no_colon p.Port) (Itoa_no_colon q.Port) hd1
  obtain ⟨hg, hi⟩ := split_at_colon _ _ _ _ hpg hqg hd2
  exact ⟨String.ext ha, Itoa_injective _ _ hport, String.ext hg, String.ext hi⟩

theorem GetStorageServerUID_injective_without_colon_witness :
    (NoColon peerA.AdvertiseAddr ∧ NoColon peerB.AdvertiseAddr ∧ NoColon peerA.Group ∧
      NoColon peerB.Group) ∧
    (GetStorageServerUID peerA = GetStorageServerUID peerB ↔
      (peerA.AdvertiseAddr = peerB.AdvertiseAddr ∧ peerA.Port = peerB.Port ∧
        peerA.Group = peerB.Group ∧ peerA.InstanceId = peerB.InstanceId)) :=
  ⟨by decide,
   (GetStorageServerUID_injective_without_colon peerA peerB).2 (by decide) (by decide)
     (by decide) (by decide)⟩

/-- C13 as stated fails: two peers that differ in `Group` and in `InstanceId`
have the same key, and a connection handed back for the one is what
`GetConnBridge` returns for the other. -/
theorem GetStorageServerUID_collision_counterexample :
    peerColonGroup ≠ peerColonInstance ∧
    peerColonGroup.Group ≠ peerColonInstance.Group ∧
    peerColonGroup.InstanceId ≠ peerColonInstance.InstanceId ∧
    GetStorageServerUID peerColonGroup = GetStorageServerUID peerColonInstance ∧
    (GetConnBridge extDialFails
      (ReturnConnBridge (Init zeroPool 2) peerColonGroup (some 1)).pool peerColonInstance).ret
      = (some 1, none) := by
  decide

end libclient
